import Mathlib

/-!
Shallow embedding of `generate_pluginmaster.py`: a build-time aggregator that
walks `./plugins/*/`, validates and enriches per-plugin JSON manifests, carries
`LastUpdate` timestamps over from the previous `pluginmaster.json`, sorts the
collection and serializes it.

JSON values are modelled by `JVal`; Python dicts produced by `json.load` are
association lists with distinct keys in insertion order (`Manifest`).  The
network is a parameter (`ApiFun`): `requests.get` either raises
(`HttpResult.exn`, covering connection errors and timeouts) or returns a status
code together with the result of `r.json()` (`none` when the body is not valid
JSON).  The filesystem is a parameter as well: the sequence of
`(dirpath, filenames)` pairs produced by `os.walk("./plugins")` (the root
directory itself first, then every descendant directory in walk order), plus a
map from manifest paths to the result of `_safe_load_json` (`none` models an
unreadable file or invalid JSON; files whose JSON is not an object are outside
the model, no claim concerns them).  Exceptions are modelled by `Option` and
`Except`.  Wall-clock time is a `Nat` parameter (`int(time())`).
-/

/-- JSON values (the values Python's `json.load` produces). -/
inductive JVal where
  | null
  | bool (b : Bool)
  | num (n : Int)
  | str (s : String)
  | arr (xs : List JVal)
  | obj (kvs : List (String × JVal))

namespace JVal

mutual
def beq : JVal → JVal → Bool
  | .null, .null => true
  | .bool a, .bool b => a == b
  | .num a, .num b => a == b
  | .str a, .str b => a == b
  | .arr as, .arr bs => beqList as bs
  | .obj as, .obj bs => beqObj as bs
  | _, _ => false
def beqList : List JVal → List JVal → Bool
  | [], [] => true
  | a :: as, b :: bs => beq a b && beqList as bs
  | _, _ => false
def beqObj : List (String × JVal) → List (String × JVal) → Bool
  | [], [] => true
  | (k, v) :: as, (k', v') :: bs => k == k' && beq v v' && beqObj as bs
  | _, _ => false
end

mutual
theorem beq_iff : ∀ a b : JVal, beq a b = true ↔ a = b
  | .null, .null => by simp [beq]
  | .bool _, .bool _ => by simp [beq]
  | .num _, .num _ => by simp [beq]
  | .str _, .str _ => by simp [beq]
  | .arr as, .arr bs => by simp [beq, beqList_iff as bs]
  | .obj as, .obj bs => by simp [beq, beqObj_iff as bs]
  | .null, .bool _ => by simp [beq]
  | .null, .num _ => by simp [beq]
  | .null, .str _ => by simp [beq]
  | .null, .arr _ => by simp [beq]
  | .null, .obj _ => by simp [beq]
  | .bool _, .null => by simp [beq]
  | .bool _, .num _ => by simp [beq]
  | .bool _, .str _ => by simp [beq]
  | .bool _, .arr _ => by simp [beq]
  | .bool _, .obj _ => by simp [beq]
  | .num _, .null => by simp [beq]
  | .num _, .bool _ => by simp [beq]
  | .num _, .str _ => by simp [beq]
  | .num _, .arr _ => by simp [beq]
  | .num _, .obj _ => by simp [beq]
  | .str _, .null => by simp [beq]
  | .str _, .bool _ => by simp [beq]
  | .str _, .num _ => by simp [beq]
  | .str _, .arr _ => by simp [beq]
  | .str _, .obj _ => by simp [beq]
  | .arr _, .null => by simp [beq]
  | .arr _, .bool _ => by simp [beq]
  | .arr _, .num _ => by simp [beq]
  | .arr _, .str _ => by simp [beq]
  | .arr _, .obj _ => by simp [beq]
  | .obj _, .null => by simp [beq]
  | .obj _, .bool _ => by simp [beq]
  | .obj _, .num _ => by simp [beq]
  | .obj _, .str _ => by simp [beq]
  | .obj _, .arr _ => by simp [beq]
theorem beqList_iff : ∀ as bs : List JVal, beqList as bs = true ↔ as = bs
  | [], [] => by simp [beqList]
  | a :: as, b :: bs => by simp [beqList, beq_iff a b, beqList_iff as bs]
  | [], _ :: _ => by simp [beqList]
  | _ :: _, [] => by simp [beqList]
theorem beqObj_iff : ∀ as bs : List (String × JVal), beqObj as bs = true ↔ as = bs
  | [], [] => by simp [beqObj]
  | (_, v) :: as, (_, v') :: bs => by
      simp [beqObj, beq_iff v v', beqObj_iff as bs, and_assoc]
  | [], _ :: _ => by simp [beqObj]
  | _ :: _, [] => by simp [beqObj]
end

instance : DecidableEq JVal := fun a b => decidable_of_iff _ (beq_iff a b)

end JVal

/-- A Python dict as produced by `json.load`: string keys, insertion order,
no duplicate keys (duplicate keys in a JSON file collapse before the script
ever sees them, and every update below goes through `pySet`/`pySetDefault`). -/
abbrev Manifest := List (String × JVal)

/-- `k in d` for a Python dict. -/
def containsKey (m : Manifest) (k : String) : Bool := m.any (fun kv => kv.1 == k)

/-- `d[k]` / raw lookup (first occurrence; keys are unique by construction). -/
def pyLookup (m : Manifest) (k : String) : Option JVal :=
  (m.find? (fun kv => kv.1 == k)).map (fun kv => kv.2)

/-- `d.get(k)`: Python returns `None` both for an absent key and for a stored
JSON `null`, so the default is `JVal.null`. -/
def pyGet (m : Manifest) (k : String) : JVal := (pyLookup m k).getD .null

/-- `d.get(k, default)`. -/
def pyGetD (m : Manifest) (k : String) (d : JVal) : JVal := (pyLookup m k).getD d

/-- `d[k] = v`: updates the existing slot in place, otherwise appends at the
end (Python dicts preserve insertion order). -/
def pySet (m : Manifest) (k : String) (v : JVal) : Manifest :=
  if containsKey m k then m.map (fun kv => if kv.1 = k then (k, v) else kv)
  else m ++ [(k, v)]

/-- `d.setdefault(k, v)`. -/
def pySetDefault (m : Manifest) (k : String) (v : JVal) : Manifest :=
  if containsKey m k then m else m ++ [(k, v)]

/-! Python `==` on JSON values (`pyEq`).  `True == 1` and `False == 0` hold in
Python (bool is a subclass of int).  Python dict equality ignores insertion
order; the script only ever compares scalar manifest fields
(`AssemblyVersion`, `InternalName` values), so the order-sensitive comparison
used here for nested objects is adequate. -/
mutual
def pyEq : JVal → JVal → Bool
  | .null, .null => true
  | .bool a, .bool b => a == b
  | .bool a, .num n => (if a then (1 : Int) else 0) == n
  | .num n, .bool b => n == (if b then (1 : Int) else 0)
  | .num a, .num b => a == b
  | .str a, .str b => a == b
  | .arr as, .arr bs => pyEqList as bs
  | .obj as, .obj bs => pyEqObj as bs
  | _, _ => false
def pyEqList : List JVal → List JVal → Bool
  | [], [] => true
  | a :: as, b :: bs => pyEq a b && pyEqList as bs
  | _, _ => false
def pyEqObj : List (String × JVal) → List (String × JVal) → Bool
  | [], [] => true
  | (k, v) :: as, (k', v') :: bs => k == k' && pyEq v v' && pyEqObj as bs
  | _, _ => false
end

mutual
theorem pyEq_refl : ∀ v : JVal, pyEq v v = true
  | .null => by simp [pyEq]
  | .bool _ => by simp [pyEq]
  | .num _ => by simp [pyEq]
  | .str _ => by simp [pyEq]
  | .arr as => by simp [pyEq, pyEqList_refl as]
  | .obj as => by simp [pyEq, pyEqObj_refl as]
theorem pyEqList_refl : ∀ as : List JVal, pyEqList as as = true
  | [] => by simp [pyEqList]
  | a :: as => by simp [pyEqList, pyEq_refl a, pyEqList_refl as]
theorem pyEqObj_refl : ∀ as : List (String × JVal), pyEqObj as as = true
  | [] => by simp [pyEqObj]
  | (_, v) :: as => by simp [pyEqObj, pyEq_refl v, pyEqObj_refl as]
end

theorem pyEq_str_iff (a b : String) : pyEq (.str a) (.str b) = true ↔ a = b := by
  simp [pyEq]

/-- Characters stripped by Python's `str.strip()` (ASCII whitespace; the
manifests are ASCII so further unicode whitespace is not modelled). -/
def isPyWs (c : Char) : Bool :=
  c = ' ' || c = '\t' || c = '\n' || c = '\x0b' || c = '\x0c' || c = '\r'

/-- `s.strip()`. -/
def pyStrip (s : String) : String :=
  ⟨((s.data.dropWhile isPyWs).reverse.dropWhile isPyWs).reverse⟩

/-- `s.rstrip(c)` for a single strip character. -/
def rstripChar (c : Char) (s : String) : String :=
  ⟨(s.data.reverse.dropWhile (fun x => x = c)).reverse⟩

/-- `repo_url.rstrip("/")`. -/
def rstripSlashes (s : String) : String := rstripChar '/' s

/-! Python `str()` of a JSON value (`pyStr`).  For lists and dicts this follows
the shape of Python's repr (the script only ever tests the result for
emptiness after `strip()`, or interpolates a validated version string into a
URL; repr quote escaping is not modelled). -/
mutual
def pyStr : JVal → String
  | .null => "None"
  | .bool true => "True"
  | .bool false => "False"
  | .num n => toString n
  | .str s => s
  | .arr xs => "[" ++ String.intercalate ", " (pyReprList xs) ++ "]"
  | .obj kvs => "\x7b" ++ String.intercalate ", " (pyReprObj kvs) ++ "\x7d"
def pyRepr : JVal → String
  | .str s => "\x27" ++ s ++ "\x27"
  | .null => "None"
  | .bool true => "True"
  | .bool false => "False"
  | .num n => toString n
  | .arr xs => "[" ++ String.intercalate ", " (pyReprList xs) ++ "]"
  | .obj kvs => "\x7b" ++ String.intercalate ", " (pyReprObj kvs) ++ "\x7d"
def pyReprList : List JVal → List String
  | [] => []
  | x :: xs => pyRepr x :: pyReprList xs
def pyReprObj : List (String × JVal) → List String
  | [] => []
  | (k, v) :: kvs => ("\x27" ++ k ++ "\x27: " ++ pyRepr v) :: pyReprObj kvs
end

/-! ### `urllib.parse.urlparse`, restricted to what `parse_owner_repo` reads

`parse_owner_repo` only consults `p.netloc` and `p.path`.  The model follows
CPython's `urlsplit`: first sanitize the input (bpo-43882, in every supported
CPython: strip leading characters with code point at most 0x20, then remove
every tab, carriage return and newline), then split a valid scheme at the
first `:`, read the netloc after `//` up to the first `/`, `?` or `#`, cut
the path at the first `?` or `#`, and (this is `urlparse`, not `urlsplit`)
split `;params` off the last path segment.  The IPv6 bracket check is not
modelled: a netloc containing a bracket is never `github.com` or
`www.github.com`, so the verdict agrees. -/

/-- `_WHATWG_C0_CONTROL_OR_SPACE`: code points `0x00`–`0x20`, lstripped from
the URL by CPython's `urlsplit`. -/
def isC0ControlOrSpace (c : Char) : Bool := c.toNat ≤ 0x20

/-- `_UNSAFE_URL_BYTES_TO_REMOVE`: tab, CR and LF, removed everywhere by
CPython's `urlsplit`. -/
def isUnsafeUrlChar (c : Char) : Bool := c = '\t' || c = '\r' || c = '\n'

/-- `urlsplit`'s input sanitization: `url.lstrip(_WHATWG_C0_CONTROL_OR_SPACE)`
followed by `url.replace(b, "")` for each unsafe byte, in that order. -/
def urlSanitize (l : List Char) : List Char :=
  (l.dropWhile isC0ControlOrSpace).filter (fun c => !isUnsafeUrlChar c)

/-- Characters allowed in a URL scheme. -/
def schemeChar (c : Char) : Bool := c.isAlphanum || c = '+' || c = '-' || c = '.'

/-- A valid scheme: nonempty, leading ASCII letter, scheme characters only. -/
def validScheme : List Char → Bool
  | [] => false
  | c :: cs => c.isAlpha && cs.all schemeChar

/-- Split a char list at the first `:`, if any. -/
def splitSchemeAux : List Char → Option (List Char × List Char)
  | [] => none
  | c :: cs =>
    if c = ':' then some ([], cs)
    else match splitSchemeAux cs with
         | none => none
         | some (pre, post) => some (c :: pre, post)

/-- Drop a leading `scheme:` when the scheme is valid (CPython keeps the URL
unchanged otherwise). -/
def afterScheme (l : List Char) : List Char :=
  match splitSchemeAux l with
  | none => l
  | some (pre, post) => if validScheme pre then post else l

/-- Netloc continues until `/`, `?` or `#`. -/
def notNetlocEnd (c : Char) : Bool := c ≠ '/' && c ≠ '?' && c ≠ '#'

/-- `(p.netloc, rest-after-netloc)` of `urlsplit` (input sanitized first). -/
def urlSplitNetloc (l : List Char) : List Char × List Char :=
  match afterScheme (urlSanitize l) with
  | '/' :: '/' :: rest => (rest.takeWhile notNetlocEnd, rest.dropWhile notNetlocEnd)
  | u => ([], u)

/-- The path stops at the first `?` (query) or `#` (fragment). -/
def notQueryFrag (c : Char) : Bool := c ≠ '?' && c ≠ '#'

/-- `url.split(sep)` on char lists. -/
def splitOnChar (sep : Char) : List Char → List (List Char)
  | [] => [[]]
  | c :: cs =>
    if c = sep then [] :: splitOnChar sep cs
    else match splitOnChar sep cs with
         | [] => [[c]]
         | r :: rs => (c :: r) :: rs

/-- `urlparse`'s `_splitparams` applied to the path: when the path contains a
`;`, cut at the first `;` of the last `/`-segment (or of the whole string if
it has no `/`); keep the path unchanged when that segment has no `;`. -/
def splitParams (p : List Char) : List Char :=
  if ';' ∈ p then
    if '/' ∈ p then
      let segRev := p.reverse.takeWhile (fun c => c ≠ '/')
      let pre := p.take (p.length - segRev.length)
      pre ++ segRev.reverse.takeWhile (fun c => c ≠ ';')
    else p.takeWhile (fun c => c ≠ ';')
  else p

/-- `p.path` of `urlparse` (params already split off). -/
def urlParsePath (rest : List Char) : List Char :=
  splitParams (rest.takeWhile notQueryFrag)

/-- `parse_owner_repo` on a string URL: netloc must be `github.com` or
`www.github.com`, and the path must have at least two nonempty segments.
`.error` models the raised `ValueError`. -/
def parse_owner_repo_str (s : String) : Except String (String × String) :=
  let nr := urlSplitNetloc s.data
  if nr.1 = "github.com".data ∨ nr.1 = "www.github.com".data then
    match (splitOnChar '/' (urlParsePath nr.2)).filter (fun x => x ≠ []) with
    | o :: r :: _ => .ok (⟨o⟩, ⟨r⟩)
    | _ => .error ("RepoUrl path should be /owner/repo: " ++ s)
  else .error ("RepoUrl is not github.com: " ++ s)

/-- `parse_owner_repo` as called on a manifest field: `urlparse` raises on a
non-string argument, which `validate_manifest` catches like any other error. -/
def parse_owner_repo : JVal → Except String (String × String)
  | .str s => parse_owner_repo_str s
  | _ => .error "RepoUrl is not a string"

/-! ### Trimming and validation -/

def TRIMMED_KEYS : List String :=
  ["Author", "Name", "Punchline", "Description", "Changelog", "InternalName",
   "AssemblyVersion", "RepoUrl", "ApplicableVersion", "Tags", "CategoryTags",
   "DalamudApiLevel", "IconUrl", "ImageUrls"]

def REQUIRED_KEYS : List String := ["InternalName", "AssemblyVersion", "RepoUrl"]

/-- `{k: plugin[k] for k in TRIMMED_KEYS if k in plugin}` (dict comprehension:
result keys appear in `TRIMMED_KEYS` order). -/
def trim_manifest (plugin : Manifest) : Manifest :=
  TRIMMED_KEYS.filterMap (fun k => (pyLookup plugin k).map (fun v => (k, v)))

/-- `manifest[k] in (None, "", [])` under Python `==`. -/
def isEmptyish (v : JVal) : Bool :=
  pyEq v .null || pyEq v (.str "") || pyEq v (.arr [])

/-- `validate_manifest`: collects all diagnostics of the three stages (missing
required keys, `RepoUrl` shape, blank `AssemblyVersion`) and returns
`(len(errors) == 0, errors)`. -/
def validate_manifest (manifest : Manifest) : Bool × List String :=
  let errors := REQUIRED_KEYS.foldl
    (fun errs k =>
      if !(containsKey manifest k) || isEmptyish (pyGet manifest k)
      then errs ++ ["missing required key: " ++ k] else errs) []
  let errors :=
    match parse_owner_repo (pyGetD manifest "RepoUrl" (.str "")) with
    | .ok (owner, repo) =>
        if owner = "" ∨ repo = "" then
          errors ++ ["RepoUrl is not a valid GitHub repository URL"]
        else errors
    | .error ex => errors ++ ["RepoUrl invalid: " ++ ex]
  let errors :=
    if containsKey manifest "AssemblyVersion"
       && pyStrip (pyStr (pyGet manifest "AssemblyVersion")) == ""
    then errors ++ ["AssemblyVersion is empty"] else errors
  (errors.isEmpty, errors)

/-! ### Enrichment -/

def DEFAULTS : List (String × JVal) :=
  [("IsHide", .bool false), ("IsTestingExclusive", .bool false),
   ("ApplicableVersion", .str "any")]

def DUPLICATES : List (String × List String) :=
  [("DownloadLinkInstall", ["DownloadLinkTesting", "DownloadLinkUpdate"])]

/-- One GitHub API exchange: `requests.get` raised, or returned a status code
and the result of `r.json()` (`none`: the body was not valid JSON). -/
inductive HttpResult where
  | exn
  | resp (status : Nat) (body : Option JVal)

/-- The remote API as a function of `(owner, repo, version)`. -/
abbrev ApiFun := String → String → String → HttpResult

/-- `asset.get("download_count", 0)` as a summand: `none` models the
`TypeError` raised when the asset is not a dict or the count not a number
(a bool counts as its int value in a Python sum). -/
def assetCount : JVal → Option Int
  | .obj kvs =>
      match (pyLookup kvs "download_count").getD (.num 0) with
      | .num n => some n
      | .bool b => some (if b then 1 else 0)
      | _ => none
  | _ => none

def sumAssetCounts : List JVal → Option Int
  | [] => some 0
  | a :: rest =>
      match assetCount a, sumAssetCounts rest with
      | some n, some m => some (n + m)
      | _, _ => none

/-- `sum(asset.get("download_count", 0) for asset in data.get("assets", []))`;
`none` models any raised `TypeError`/`AttributeError` (non-dict response,
non-list assets, malformed asset). -/
def releaseBodyCount (data : JVal) : Option Int :=
  match data with
  | .obj kvs =>
      match (pyLookup kvs "assets").getD (.arr []) with
      | .arr xs => sumAssetCounts xs
      | _ => none
  | _ => none

/-- `get_release_download_count`: 0 on a raised request, a non-200 status, an
unparsable body, or a malformed body structure. -/
def get_release_download_count (r : HttpResult) : Int :=
  match r with
  | .exn => 0
  | .resp status body =>
      if status ≠ 200 then 0
      else match body with
           | none => 0
           | some data => (releaseBodyCount data).getD 0

/-- `enrich_manifest` (in-place mutation modelled by returning a new dict).
`none` models a raised exception, caught by the caller as "enrichment failed":
`AssemblyVersion`/`RepoUrl` missing, `RepoUrl` not a string (`.rstrip` on a
non-string raises), or `parse_owner_repo` failing on the slash-stripped URL. -/
def enrich_manifest (api : ApiFun) (manifest : Manifest) : Option Manifest :=
  match pyLookup manifest "AssemblyVersion", pyLookup manifest "RepoUrl" with
  | some av, some (.str ru) =>
      let version := pyStrip (pyStr av)
      let repo_url := rstripSlashes ru
      let m := pySet manifest "DownloadLinkInstall"
        (.str (repo_url ++ "/releases/download/v" ++ version ++ "/latest.zip"))
      let m := DEFAULTS.foldl (fun m kv => pySetDefault m kv.1 kv.2) m
      let m := DUPLICATES.foldl
        (fun m skv => skv.2.foldl (fun m k => pySetDefault m k (pyGet m skv.1)) m) m
      match parse_owner_repo_str repo_url with
      | .ok (owner, repo) =>
          some (pySet m "DownloadCount"
            (.num (get_release_download_count (api owner repo version))))
      | .error _ => none
  | _, _ => none

/-! ### Timestamp reconciliation -/

/-- The generator of `prev_map`: keep the previous-index entries that are
dicts containing `"InternalName"`. -/
def prevFilter (previous : List JVal) : List Manifest :=
  previous.filterMap (fun v =>
    match v with
    | .obj kvs => if containsKey kvs "InternalName" then some kvs else none
    | _ => none)

/-- `prev_map.get(key)`: later entries overwrite earlier ones in the dict
comprehension, so the last matching entry wins. -/
def prevLookup (prevs : List Manifest) (key : JVal) : Option Manifest :=
  (prevs.filter (fun p => pyEq (pyGet p "InternalName") key)).getLast?

/-- The loop body of `get_last_updated_times` for one manifest: stamp it with
`str(int(time()))`, then overwrite with the previous entry's `LastUpdate` when
the previous entry with the same `InternalName` has an identical
`AssemblyVersion`. -/
def stampManifest (prevs : List Manifest) (nowStr : JVal) (manifest : Manifest) :
    Manifest :=
  let m := pySet manifest "LastUpdate" nowStr
  match prevLookup prevs (pyGet manifest "InternalName") with
  | some prev =>
      if pyEq (pyGet prev "AssemblyVersion") (pyGet manifest "AssemblyVersion")
      then pySet m "LastUpdate" (pyGetD prev "LastUpdate" nowStr)
      else m
  | none => m

/-- `get_last_updated_times`.  `previous` is the parsed content of the
existing `pluginmaster.json` (empty when the file is missing or unreadable or
its JSON invalid). -/
def get_last_updated_times (previous : List JVal) (now : Nat)
    (manifests : List Manifest) : List Manifest :=
  manifests.map (stampManifest (prevFilter previous) (.str (toString now)))

/-! ### Collector -/

/-- One directory visited by `os.walk`: its path and the plain files in it. -/
structure DirEntry where
  dirpath : String
  filenames : List String

/-- `os.path.basename` (paths here never end in `/` after the `rstrip`). -/
def basename (s : String) : String :=
  ⟨(s.data.reverse.takeWhile (fun c => c ≠ '/')).reverse⟩

/-- `os.path.join(dirpath, filename)` for a relative filename. -/
def pathJoin (a b : String) : String :=
  if a.data.getLast? = some '/' then a ++ b else a ++ "/" ++ b

/-- `_safe_load_json` per path: `none` is an unreadable file or invalid JSON. -/
abbrev Content := String → Option Manifest

/-- The manifest path a walked directory contributes, if any: a directory
whose basename `X` has `X.json` among its files. -/
def manifestCandidate (d : DirEntry) : Option String :=
  let plugin_name := basename (rstripChar '/' d.dirpath)
  let manifest_filename := plugin_name ++ ".json"
  if manifest_filename ∈ d.filenames then some (pathJoin d.dirpath manifest_filename)
  else none

/-- The loop body of `extract_manifests` for one walked directory: either a
validated and enriched manifest, or skip diagnostics (possibly none). -/
def processDir (content : Content) (api : ApiFun) (d : DirEntry) :
    Option Manifest × List String :=
  match manifestCandidate d with
  | none => (none, [])
  | some manifest_path =>
      match content manifest_path with
      | none => (none, ["[skip] " ++ manifest_path ++ ": invalid JSON or unreadable."])
      | some raw =>
          let trimmed := trim_manifest raw
          let v := validate_manifest trimmed
          if v.1 then
            match enrich_manifest api trimmed with
            | some m => (some m, [])
            | none => (none, ["[skip] " ++ manifest_path ++ ": enrichment failed."])
          else (none, v.2.map (fun e => "[skip] " ++ manifest_path ++ ": " ++ e))

/-- The collection loop of `extract_manifests`, before timestamps. -/
def collect_valid (content : Content) (api : ApiFun) :
    List DirEntry → List Manifest × List String
  | [] => ([], [])
  | d :: ds =>
      let step := processDir content api d
      let rest := collect_valid content api ds
      (match step.1 with
       | some m => m :: rest.1
       | none => rest.1,
       step.2 ++ rest.2)

/-- `extract_manifests`: collect, validate, enrich, then stamp `LastUpdate`. -/
def extract_manifests (content : Content) (api : ApiFun) (previous : List JVal)
    (now : Nat) (walk : List DirEntry) : List Manifest × List String :=
  let collected := collect_valid content api walk
  (get_last_updated_times previous now collected.1, collected.2)

/-! ### Sorting and writing -/

/-- Lexicographic comparison of char lists by code point: exactly Python's
`str < str`. -/
def charListLt : List Char → List Char → Bool
  | _, [] => false
  | [], _ :: _ => true
  | a :: as, b :: bs =>
      if a < b then true else if a = b then charListLt as bs else false

/-- Python `<` on strings. -/
def pyStrLt (a b : String) : Bool := charListLt a.data b.data

/-- Python `<=` on strings. -/
def pyStrLe (a b : String) : Bool := pyStrLt a b || a == b

/-- Python `<` as used on the components of the sort key (the pipeline only
compares strings there; comparing anything else raises in Python and is
unreachable under the theorems' hypotheses). -/
def jvalLtB : JVal → JVal → Bool
  | .str a, .str b => pyStrLt a b
  | _, _ => false

/-- Python `<=` on sort-key components (same caveat as `jvalLtB`). -/
def jvalLeB : JVal → JVal → Bool
  | .str a, .str b => pyStrLe a b
  | _, _ => false

/-- `(m.get("InternalName", ""), m.get("AssemblyVersion", ""))`. -/
def sortKey (m : Manifest) : JVal × JVal :=
  (pyGetD m "InternalName" (.str ""), pyGetD m "AssemblyVersion" (.str ""))

/-- Lexicographic tuple comparison: the second components are only consulted
when the first components are `==`-equal, as in Python. -/
def keyPairLe (x y : JVal × JVal) : Bool :=
  if pyEq x.1 y.1 then jvalLeB x.2 y.2 else jvalLtB x.1 y.1

/-- "May precede" for the stable sort in `main`. -/
def manifestLe (a b : Manifest) : Bool := keyPairLe (sortKey a) (sortKey b)

/-- Stable insertion: an element goes in front of the first element it may
precede, so earlier elements stay in front of key-equal later ones. -/
def insertSorted (le : α → α → Bool) (x : α) : List α → List α
  | [] => [x]
  | y :: ys => if le x y then x :: y :: ys else y :: insertSorted le x ys

/-- A stable sort; for a total preorder comparator this computes the same
sequence as Python's stable `list.sort`. -/
def stableSort (le : α → α → Bool) : List α → List α
  | [] => []
  | x :: xs => insertSorted le x (stableSort le xs)

/-- Hex digit for the `\u00XX` escapes of control characters. -/
def hexDigit (n : Nat) : Char :=
  if n < 10 then Char.ofNat ('0'.toNat + n) else Char.ofNat ('a'.toNat + (n - 10))

/-- `json.dump`'s escaping of one character (`ensure_ascii=False`: non-ASCII
characters are written literally). -/
def jsonEscapeChar (c : Char) : String :=
  if c = '"' then "\\\""
  else if c = '\\' then "\\\\"
  else if c = '\n' then "\\n"
  else if c = '\r' then "\\r"
  else if c = '\t' then "\\t"
  else if c = '\x08' then "\\b"
  else if c = '\x0c' then "\\f"
  else if c.toNat < 32 then
    "\\u00" ++ String.mk [hexDigit (c.toNat / 16), hexDigit (c.toNat % 16)]
  else String.singleton c

def jsonEscape (s : String) : String := String.join (s.data.map jsonEscapeChar)

/-- Indentation of `json.dump(..., indent=4)`. -/
def jsonPad (level : Nat) : String := String.mk (List.replicate (4 * level) ' ')

/-! `jsonDump`: `json.dump(v, f, indent=4, ensure_ascii=False)`. -/
mutual
def jsonDump : JVal → Nat → String
  | .null, _ => "null"
  | .bool true, _ => "true"
  | .bool false, _ => "false"
  | .num n, _ => toString n
  | .str s, _ => "\"" ++ jsonEscape s ++ "\""
  | .arr [], _ => "[]"
  | .arr (x :: xs), lvl =>
      "[\n" ++ String.intercalate ",\n" (jsonDumpList (x :: xs) (lvl + 1))
        ++ "\n" ++ jsonPad lvl ++ "]"
  | .obj [], _ => "\x7b\x7d"
  | .obj (kv :: kvs), lvl =>
      "\x7b\n" ++ String.intercalate ",\n" (jsonDumpObj (kv :: kvs) (lvl + 1))
        ++ "\n" ++ jsonPad lvl ++ "\x7d"
def jsonDumpList : List JVal → Nat → List String
  | [], _ => []
  | x :: xs, lvl => (jsonPad lvl ++ jsonDump x lvl) :: jsonDumpList xs lvl
def jsonDumpObj : List (String × JVal) → Nat → List String
  | [], _ => []
  | (k, v) :: kvs, lvl =>
      (jsonPad lvl ++ "\"" ++ jsonEscape k ++ "\": " ++ jsonDump v lvl)
        :: jsonDumpObj kvs lvl
end

/-- `write_master`: the exact byte content written to `pluginmaster.json`. -/
def write_master (master : List Manifest) : String :=
  jsonDump (.arr (master.map .obj)) 0

/-- The sorted final collection of `main` (`manifests.sort(key=...)`). -/
def run_collection (content : Content) (api : ApiFun) (previous : List JVal)
    (now : Nat) (walk : List DirEntry) : List Manifest :=
  stableSort manifestLe (extract_manifests content api previous now walk).1

/-- `main`: the output-file content and the log lines. -/
def main_run (content : Content) (api : ApiFun) (previous : List JVal)
    (now : Nat) (walk : List DirEntry) : String × List String :=
  let extracted := extract_manifests content api previous now walk
  let logs := extracted.2 ++
    (if extracted.1.isEmpty then
      ["No valid plugin manifests found. Writing empty pluginmaster.json."]
     else [])
  (write_master (stableSort manifestLe extracted.1), logs)

/-! ### Lemmas about the dict operations -/

theorem pyLookup_cons (kv : String × JVal) (m : Manifest) (k : String) :
    pyLookup (kv :: m) k = if kv.1 = k then some kv.2 else pyLookup m k := by
  by_cases h : kv.1 = k <;> simp [pyLookup, List.find?_cons, h]

theorem containsKey_cons (kv : String × JVal) (m : Manifest) (k : String) :
    containsKey (kv :: m) k = (kv.1 == k || containsKey m k) := by
  simp [containsKey]

theorem containsKey_eq_isSome (m : Manifest) (k : String) :
    containsKey m k = (pyLookup m k).isSome := by
  induction m with
  | nil => rfl
  | cons kv t ih =>
      by_cases h : kv.1 = k <;>
        simp [containsKey_cons, pyLookup_cons, h, ih]

theorem pyLookup_append (m1 m2 : Manifest) (k : String) :
    pyLookup (m1 ++ m2) k = (pyLookup m1 k).or (pyLookup m2 k) := by
  cases h : List.find? (fun kv => kv.1 == k) m1 <;>
    simp [pyLookup, List.find?_append, h, Option.or]

theorem pyLookup_singleton (k' : String) (v : JVal) (k : String) :
    pyLookup [(k', v)] k = if k' = k then some v else none := by
  by_cases h : k' = k <;> simp [pyLookup, List.find?_cons, h]

theorem pyLookup_none_of_not_contains (m : Manifest) (k : String)
    (h : containsKey m k = false) : pyLookup m k = none := by
  rw [containsKey_eq_isSome] at h
  exact Option.not_isSome_iff_eq_none.mp (by simp [h])

/-- Replacing the value at a key the dict does not contain changes nothing. -/
theorem map_replace_eq_self (m : Manifest) (k : String) (v : JVal)
    (h : containsKey m k = false) :
    m.map (fun kv => if kv.1 = k then (k, v) else kv) = m := by
  induction m with
  | nil => rfl
  | cons kv t ih =>
      simp only [containsKey_cons, Bool.or_eq_false_iff, beq_eq_false_iff_ne,
        ne_eq] at h
      simp only [List.map_cons, h.1, if_false]
      rw [ih h.2]

/-- Lookup after the replace-in-place branch of `pySet`. -/
theorem pyLookup_map_replace (m : Manifest) (k k' : String) (v : JVal) :
    pyLookup (m.map (fun kv => if kv.1 = k then (k, v) else kv)) k'
      = if k' = k then (if containsKey m k then some v else none)
        else pyLookup m k' := by
  induction m with
  | nil => by_cases h : k' = k <;> simp [pyLookup, h, containsKey]
  | cons kv t ih =>
      obtain ⟨k0, v0⟩ := kv
      by_cases hk : k0 = k
      · subst hk
        by_cases hk' : k' = k0
        · subst hk'
          simp [pyLookup_cons, containsKey_cons]
        · have hnk : ¬(k0 = k') := fun he => hk' he.symm
          simp [pyLookup_cons, hnk, hk', ih]
      · by_cases hk' : k' = k
        · subst hk'
          simp [hk, pyLookup_cons, containsKey_cons, ih,
            fun he : k0 = k' => hk he]
        · by_cases he : k0 = k'
          · simp [hk, pyLookup_cons, he, hk']
          · simp [hk, pyLookup_cons, he, hk', ih]

/-- The single characterization of `d[k] = v`: the written key reads back the
written value, every other key is untouched. -/
theorem pyLookup_pySet (m : Manifest) (k k' : String) (v : JVal) :
    pyLookup (pySet m k v) k' = if k' = k then some v else pyLookup m k' := by
  unfold pySet
  by_cases hc : containsKey m k
  · simp only [hc, if_true, pyLookup_map_replace]
  · simp only [hc, Bool.false_eq_true, if_false, pyLookup_append,
      pyLookup_singleton]
    by_cases h : k' = k
    · subst h
      rw [pyLookup_none_of_not_contains m k' (by simpa using hc)]
      simp [Option.or]
    · have hne : ¬(k = k') := fun he => h he.symm
      simp [hne, h, Option.or_none]

theorem pyLookup_pySet_same (m : Manifest) (k : String) (v : JVal) :
    pyLookup (pySet m k v) k = some v := by
  simp [pyLookup_pySet]

theorem pyLookup_pySet_other (m : Manifest) (k k' : String) (v : JVal)
    (h : k' ≠ k) : pyLookup (pySet m k v) k' = pyLookup m k' := by
  simp [pyLookup_pySet, h]

theorem pyGet_pySet_same (m : Manifest) (k : String) (v : JVal) :
    pyGet (pySet m k v) k = v := by
  simp [pyGet, pyLookup_pySet_same]

theorem pyGet_pySet_other (m : Manifest) (k k' : String) (v : JVal)
    (h : k' ≠ k) : pyGet (pySet m k v) k' = pyGet m k' := by
  simp [pyGet, pyLookup_pySet_other m k k' v h]

theorem containsKey_pySet_self (m : Manifest) (k : String) (v : JVal) :
    containsKey (pySet m k v) k = true := by
  simp [containsKey_eq_isSome, pyLookup_pySet_same]

theorem containsKey_pySet_other (m : Manifest) (k k' : String) (v : JVal)
    (h : k' ≠ k) : containsKey (pySet m k v) k' = containsKey m k' := by
  simp [containsKey_eq_isSome, pyLookup_pySet_other m k k' v h]

theorem pySet_pySet_same (m : Manifest) (k : String) (v w : JVal) :
    pySet (pySet m k v) k w = pySet m k w := by
  by_cases h : containsKey m k
  · have e1 : pySet m k v = m.map (fun kv => if kv.1 = k then (k, v) else kv) := by
      simp [pySet, h]
    have e2 : containsKey (pySet m k v) k = true := containsKey_pySet_self m k v
    rw [e1] at e2 ⊢
    have e3 : pySet (m.map (fun kv => if kv.1 = k then (k, v) else kv)) k w
        = (m.map (fun kv => if kv.1 = k then (k, v) else kv)).map
            (fun kv => if kv.1 = k then (k, w) else kv) := by
      simp [pySet, e2]
    rw [e3, List.map_map]
    have e4 : pySet m k w = m.map (fun kv => if kv.1 = k then (k, w) else kv) := by
      simp [pySet, h]
    rw [e4]
    apply List.map_congr_left
    intro kv _
    by_cases hk : kv.1 = k <;> simp [Function.comp, hk]
  · have hb : containsKey m k = false := by simpa using h
    have e1 : pySet m k v = m ++ [(k, v)] := by simp [pySet, hb]
    have e2 : containsKey (pySet m k v) k = true := containsKey_pySet_self m k v
    rw [e1] at e2 ⊢
    have e3 : pySet (m ++ [(k, v)]) k w
        = (m ++ [(k, v)]).map (fun kv => if kv.1 = k then (k, w) else kv) := by
      simp [pySet, e2]
    rw [e3, List.map_append, map_replace_eq_self m k w hb]
    simp [pySet, hb]

theorem pySetDefault_of_contains (m : Manifest) (k : String) (v : JVal)
    (h : containsKey m k = true) : pySetDefault m k v = m := by
  simp [pySetDefault, h]

theorem pySetDefault_of_not_contains (m : Manifest) (k : String) (v : JVal)
    (h : containsKey m k = false) : pySetDefault m k v = m ++ [(k, v)] := by
  simp [pySetDefault, h]

theorem pyLookup_pySetDefault_same (m : Manifest) (k : String) (v : JVal) :
    pyLookup (pySetDefault m k v) k = some (pyGetD m k v) := by
  by_cases h : containsKey m k
  · rw [pySetDefault_of_contains m k v h]
    rw [containsKey_eq_isSome] at h
    cases hl : pyLookup m k with
    | none => rw [hl] at h; simp at h
    | some x => simp [pyGetD, hl]
  · have hb : containsKey m k = false := by simpa using h
    rw [pySetDefault_of_not_contains m k v hb, pyLookup_append,
      pyLookup_singleton, pyLookup_none_of_not_contains m k hb,
      if_pos rfl]
    simp [Option.or, pyGetD, pyLookup_none_of_not_contains m k hb]

theorem pyLookup_pySetDefault_other (m : Manifest) (k k' : String) (v : JVal)
    (h : k' ≠ k) : pyLookup (pySetDefault m k v) k' = pyLookup m k' := by
  by_cases hc : containsKey m k
  · rw [pySetDefault_of_contains m k v hc]
  · rw [pySetDefault_of_not_contains m k v (by simpa using hc),
      pyLookup_append, pyLookup_singleton, if_neg (fun he => h he.symm),
      Option.or_none]

theorem pyGet_pySetDefault_same (m : Manifest) (k : String) (v : JVal) :
    pyGet (pySetDefault m k v) k = pyGetD m k v := by
  simp [pyGet, pyLookup_pySetDefault_same]

theorem pyGet_pySetDefault_other (m : Manifest) (k k' : String) (v : JVal)
    (h : k' ≠ k) : pyGet (pySetDefault m k v) k' = pyGet m k' := by
  simp [pyGet, pyLookup_pySetDefault_other m k k' v h]

theorem containsKey_pySetDefault_self (m : Manifest) (k : String) (v : JVal) :
    containsKey (pySetDefault m k v) k = true := by
  simp [containsKey_eq_isSome, pyLookup_pySetDefault_same]

theorem containsKey_pySetDefault_other (m : Manifest) (k k' : String) (v : JVal)
    (h : k' ≠ k) : containsKey (pySetDefault m k v) k' = containsKey m k' := by
  simp [containsKey_eq_isSome, pyLookup_pySetDefault_other m k k' v h]

/-- Every key of a trimmed manifest is in the allow-list. -/
theorem containsKey_trim_mem (p : Manifest) (k : String)
    (h : containsKey (trim_manifest p) k = true) : k ∈ TRIMMED_KEYS := by
  simp only [containsKey, trim_manifest, List.any_eq_true] at h
  obtain ⟨kv, hmem, hk⟩ := h
  simp only [List.mem_filterMap] at hmem
  obtain ⟨k', hk', hkv⟩ := hmem
  cases ho : pyLookup p k' with
  | none => rw [ho] at hkv; exact absurd hkv (by simp)
  | some v =>
      rw [ho] at hkv
      have hkv' : (k', v) = kv := by simpa using hkv
      have hk1 : kv.1 = k := by simpa using hk
      rw [← hkv'] at hk1
      simp only at hk1
      rwa [hk1] at hk'

/-! ### Timestamp reconciliation lemmas -/

theorem pyGet_stampManifest_other (prevs : List Manifest) (ns : JVal)
    (m : Manifest) (k : String) (h : k ≠ "LastUpdate") :
    pyGet (stampManifest prevs ns m) k = pyGet m k := by
  unfold stampManifest
  cases hp : prevLookup prevs (pyGet m "InternalName") with
  | none => simp only [hp]; exact pyGet_pySet_other _ _ _ _ h
  | some prev =>
      simp only [hp]
      split_ifs with hv
      · rw [pyGet_pySet_other _ _ _ _ h, pyGet_pySet_other _ _ _ _ h]
      · exact pyGet_pySet_other _ _ _ _ h

theorem containsKey_stampManifest_other (prevs : List Manifest) (ns : JVal)
    (m : Manifest) (k : String) (h : k ≠ "LastUpdate") :
    containsKey (stampManifest prevs ns m) k = containsKey m k := by
  unfold stampManifest
  cases hp : prevLookup prevs (pyGet m "InternalName") with
  | none => simp only [hp]; exact containsKey_pySet_other _ _ _ _ h
  | some prev =>
      simp only [hp]
      split_ifs with hv
      · rw [containsKey_pySet_other _ _ _ _ h, containsKey_pySet_other _ _ _ _ h]
      · exact containsKey_pySet_other _ _ _ _ h

theorem containsKey_stampManifest_LU (prevs : List Manifest) (ns : JVal)
    (m : Manifest) :
    containsKey (stampManifest prevs ns m) "LastUpdate" = true := by
  unfold stampManifest
  cases hp : prevLookup prevs (pyGet m "InternalName") with
  | none => simp only [hp]; exact containsKey_pySet_self _ _ _
  | some prev =>
      simp only [hp]
      split_ifs with hv
      · exact containsKey_pySet_self _ _ _
      · exact containsKey_pySet_self _ _ _

theorem pyGet_stampManifest_LU (prevs : List Manifest) (ns : JVal) (m : Manifest) :
    pyGet (stampManifest prevs ns m) "LastUpdate" =
      (match prevLookup prevs (pyGet m "InternalName") with
       | some prev =>
           if pyEq (pyGet prev "AssemblyVersion") (pyGet m "AssemblyVersion")
           then pyGetD prev "LastUpdate" ns else ns
       | none => ns) := by
  unfold stampManifest
  cases hp : prevLookup prevs (pyGet m "InternalName") with
  | none => simp only [hp]; exact pyGet_pySet_same _ _ _
  | some prev =>
      simp only [hp]
      split_ifs with hv
      · rw [pySet_pySet_same]; exact pyGet_pySet_same _ _ _
      · exact pyGet_pySet_same _ _ _

/-! ### Claim C1 -/

/-- C1 counterexample data: a previous index with two entries for
`InternalName` `"A"`; the current manifest has the version of the FIRST. -/
def c1prev : List JVal :=
  [.obj [("InternalName", .str "A"), ("AssemblyVersion", .str "1"),
         ("LastUpdate", .str "5")],
   .obj [("InternalName", .str "A"), ("AssemblyVersion", .str "2"),
         ("LastUpdate", .str "6")]]

def c1m : Manifest := [("InternalName", .str "A"), ("AssemblyVersion", .str "1")]

/-- C1 counterexample: the previously persisted index DOES contain a manifest
with the same `InternalName` and an identical `AssemblyVersion` (with
`LastUpdate` `"5"`), yet `get_last_updated_times` refreshes the timestamp to
the current time `"100"`: the dict comprehension keeps only the LAST entry per
`InternalName`, and that entry has a different version. -/
theorem claim_C1_counterexample :
    ((prevFilter c1prev).any (fun p =>
        pyEq (pyGet p "InternalName") (pyGet c1m "InternalName")
        && pyEq (pyGet p "AssemblyVersion") (pyGet c1m "AssemblyVersion")
        && (pyGet p "LastUpdate" == .str "5")) = true)
    ∧ pyGet ((get_last_updated_times c1prev 100 [c1m]).headD []) "LastUpdate"
        = .str "100"
    ∧ (JVal.str "100") ≠ (JVal.str "5") := by
  refine ⟨by decide, by decide, by decide⟩

/-- C1 (amended): `get_last_updated_times` stamps every manifest with the
current wall-clock time as an integer-seconds string and leaves every other
field unchanged; the timestamp is overridden with the previous `LastUpdate`
value exactly when the LAST entry of the previously persisted index carrying
the same `InternalName` (later entries shadow earlier ones in `prev_map`) has
an `AssemblyVersion` equal to the current one — and if that entry has no
`LastUpdate` field the current time is kept. -/
theorem claim_C1 (previous : List JVal) (now : Nat) (manifests : List Manifest)
    (i : Nat) (mi : Manifest) (hmi : manifests[i]? = some mi) :
    ∃ oi, (get_last_updated_times previous now manifests)[i]? = some oi ∧
      (∀ k, k ≠ "LastUpdate" → pyGet oi k = pyGet mi k) ∧
      containsKey oi "LastUpdate" = true ∧
      (∀ prev,
        prevLookup (prevFilter previous) (pyGet mi "InternalName") = some prev →
        (pyEq (pyGet prev "AssemblyVersion") (pyGet mi "AssemblyVersion") = true →
          pyGet oi "LastUpdate" = pyGetD prev "LastUpdate" (.str (toString now))) ∧
        (pyEq (pyGet prev "AssemblyVersion") (pyGet mi "AssemblyVersion") = false →
          pyGet oi "LastUpdate" = .str (toString now))) ∧
      (prevLookup (prevFilter previous) (pyGet mi "InternalName") = none →
        pyGet oi "LastUpdate" = .str (toString now)) := by
  refine ⟨stampManifest (prevFilter previous) (.str (toString now)) mi, ?_, ?_, ?_, ?_, ?_⟩
  · unfold get_last_updated_times
    rw [List.getElem?_map, hmi]
    rfl
  · intro k hk
    exact pyGet_stampManifest_other _ _ _ _ hk
  · exact containsKey_stampManifest_LU _ _ _
  · intro prev hp
    constructor
    · intro hv
      rw [pyGet_stampManifest_LU, hp]
      simp [hv]
    · intro hv
      rw [pyGet_stampManifest_LU, hp]
      simp [hv]
  · intro hp
    rw [pyGet_stampManifest_LU, hp]

/-- Witness for C1: a single new manifest with no matching history gets the
current time `"7"`. -/
theorem claim_C1_witness :
    ∃ oi, (get_last_updated_times [] 7 [c1m])[0]? = some oi ∧
      pyGet oi "LastUpdate" = .str "7" := by
  obtain ⟨oi, h1, _, _, _, h5⟩ := claim_C1 [] 7 [c1m] 0 c1m rfl
  exact ⟨oi, h1, h5 (by decide)⟩

/-! ### URL parsing lemmas and claim C3 -/

theorem splitOnChar_ne_nil (sep : Char) (l : List Char) :
    splitOnChar sep l ≠ [] := by
  cases l with
  | nil => simp [splitOnChar]
  | cons c cs =>
      by_cases h : c = sep
      · simp [splitOnChar, h]
      · simp only [splitOnChar, h, if_false]
        cases splitOnChar sep cs <;> simp

theorem splitOnChar_of_not_mem (sep : Char) (l : List Char) (h : sep ∉ l) :
    splitOnChar sep l = [l] := by
  induction l with
  | nil => rfl
  | cons c cs ih =>
      have hc : ¬(c = sep) := fun he => h (by simp [he])
      have ht : sep ∉ cs := fun hm => h (by simp [hm])
      simp [splitOnChar, hc, ih ht]

theorem splitOnChar_append_cons (sep : Char) (l1 l2 : List Char)
    (h : sep ∉ l1) :
    splitOnChar sep (l1 ++ sep :: l2) = l1 :: splitOnChar sep l2 := by
  induction l1 with
  | nil => simp [splitOnChar]
  | cons c cs ih =>
      have hc : ¬(c = sep) := fun he => h (by simp [he])
      have ht : sep ∉ cs := fun hm => h (by simp [hm])
      simp [splitOnChar, hc, ih ht]

/-- Sanitization leaves a canonical `https://github.com/...` URL unchanged
when its tail holds no tab, CR or LF (the leading `h` stops the lstrip). -/
theorem urlSanitize_canonical (tail : List Char)
    (htail : ∀ c ∈ tail, isUnsafeUrlChar c = false) :
    urlSanitize ("https://github.com/".data ++ tail)
      = "https://github.com/".data ++ tail := by
  have hall : ∀ c ∈ "https://github.com/".data ++ tail,
      isUnsafeUrlChar c = false := by
    intro c hc
    rcases List.mem_append.mp hc with h | h
    · have hA : ("https://github.com/".data).all
          (fun c => !isUnsafeUrlChar c) = true := by decide
      simpa using List.all_eq_true.mp hA c h
    · exact htail c h
  have hdw : List.dropWhile isC0ControlOrSpace ("https://github.com/".data ++ tail)
      = "https://github.com/".data ++ tail := by
    rw [show "https://github.com/".data ++ tail
        = 'h' :: ("ttps://github.com/".data ++ tail) from rfl]
    simp [List.dropWhile, show isC0ControlOrSpace 'h' = false from rfl]
  unfold urlSanitize
  rw [hdw]
  exact List.filter_eq_self.mpr (fun c hc => by simp [hall c hc])

/-- The netloc and path of any canonical `https://github.com/...` URL whose
tail holds no tab, CR or LF. -/
theorem urlSplitNetloc_canonical (tail : List Char)
    (htail : ∀ c ∈ tail, isUnsafeUrlChar c = false) :
    urlSplitNetloc ("https://github.com/".data ++ tail)
      = ("github.com".data, '/' :: tail) := by
  unfold urlSplitNetloc
  rw [urlSanitize_canonical tail htail]
  rw [show "https://github.com/".data
      = 'h' :: 't' :: 't' :: 'p' :: 's' :: ':' :: '/' :: '/' :: 'g' :: 'i'
          :: 't' :: 'h' :: 'u' :: 'b' :: '.' :: 'c' :: 'o' :: 'm' :: '/' :: []
      from rfl,
    show "github.com".data
      = 'g' :: 'i' :: 't' :: 'h' :: 'u' :: 'b' :: '.' :: 'c' :: 'o' :: 'm' :: []
      from rfl]
  simp [afterScheme, splitSchemeAux, validScheme, schemeChar,
    notNetlocEnd, List.takeWhile, List.dropWhile]

/-- C3 counterexample: the code also accepts the host `www.github.com`.  The
claim says every URL whose host is not `github.com` makes `parse_owner_repo`
fail, but `parse_owner_repo("https://www.github.com/a/b")` returns
`("a", "b")`. -/
theorem claim_C3_counterexample :
    parse_owner_repo_str "https://www.github.com/a/b" = .ok ("a", "b")
    ∧ (urlSplitNetloc "https://www.github.com/a/b".data).1 ≠ "github.com".data := by
  exact ⟨rfl, by decide⟩

/-- C3 (amended): for every URL of the form `https://github.com/{owner}/{repo}`
whose owner and repo are nonempty path segments containing no `/`, `?`, `#`,
`;`, tab, CR or LF (CPython's `urlsplit` removes tab, CR and LF from the URL
before parsing), `parse_owner_repo` returns exactly `(owner, repo)`; and it
fails (raises) for every URL whose sanitized host is neither `github.com` nor
`www.github.com`, as well as for every URL whose parsed path has fewer than
two nonempty segments. -/
theorem claim_C3 :
    (∀ owner repo : String,
      owner.data ≠ [] → repo.data ≠ [] →
      (∀ c ∈ owner.data, c ≠ '/' ∧ c ≠ '?' ∧ c ≠ '#' ∧ c ≠ ';'
        ∧ c ≠ '\t' ∧ c ≠ '\r' ∧ c ≠ '\n') →
      (∀ c ∈ repo.data, c ≠ '/' ∧ c ≠ '?' ∧ c ≠ '#' ∧ c ≠ ';'
        ∧ c ≠ '\t' ∧ c ≠ '\r' ∧ c ≠ '\n') →
      parse_owner_repo_str ("https://github.com/" ++ owner ++ "/" ++ repo)
        = .ok (owner, repo))
    ∧ (∀ url : String,
        (urlSplitNetloc url.data).1 ≠ "github.com".data →
        (urlSplitNetloc url.data).1 ≠ "www.github.com".data →
        ∃ e, parse_owner_repo_str url = .error e)
    ∧ (∀ url : String,
        ((splitOnChar '/' (urlParsePath (urlSplitNetloc url.data).2)).filter
          (fun x => x ≠ [])).length < 2 →
        ∃ e, parse_owner_repo_str url = .error e) := by
  refine ⟨?_, ?_, ?_⟩
  · intro owner repo ho hr howner hrepo
    have hdata : ("https://github.com/" ++ owner ++ "/" ++ repo).data
        = "https://github.com/".data ++ (owner.data ++ '/' :: repo.data) := by
      simp [String.data_append]
    have huns : ∀ c ∈ owner.data ++ '/' :: repo.data,
        isUnsafeUrlChar c = false := by
      intro c hc
      simp only [List.mem_append, List.mem_cons] at hc
      rcases hc with h | h | h
      · have := howner c h
        simp [isUnsafeUrlChar, this.2.2.2.2.1, this.2.2.2.2.2.1, this.2.2.2.2.2.2]
      · subst h; decide
      · have := hrepo c h
        simp [isUnsafeUrlChar, this.2.2.2.2.1, this.2.2.2.2.2.1, this.2.2.2.2.2.2]
    have hsplit := urlSplitNetloc_canonical (owner.data ++ '/' :: repo.data) huns
    simp only [parse_owner_repo_str, hdata, hsplit]
    rw [if_pos (Or.inl trivial)]
    have hall : ∀ c ∈ '/' :: (owner.data ++ '/' :: repo.data), notQueryFrag c = true := by
      intro c hc
      simp only [List.mem_cons, List.mem_append] at hc
      rcases hc with h | h | h
      · subst h; rfl
      · have := howner c h
        simp [notQueryFrag, this.2.1, this.2.2.1]
      · rcases h with h | h
        · subst h; rfl
        · have := hrepo c h
          simp [notQueryFrag, this.2.1, this.2.2.1]
    have htw : List.takeWhile notQueryFrag ('/' :: (owner.data ++ '/' :: repo.data))
        = '/' :: (owner.data ++ '/' :: repo.data) :=
      List.takeWhile_eq_self_iff.mpr hall
    have hnosemi : ';' ∉ '/' :: (owner.data ++ '/' :: repo.data) := by
      intro hc
      simp only [List.mem_cons, List.mem_append] at hc
      rcases hc with h | h | h
      · exact absurd h.symm (by decide)
      · exact (howner ';' h).2.2.2.1 rfl
      · rcases h with h | h
        · exact absurd h.symm (by decide)
        · exact (hrepo ';' h).2.2.2.1 rfl
    have hparams : splitParams ('/' :: (owner.data ++ '/' :: repo.data))
        = '/' :: (owner.data ++ '/' :: repo.data) := by
      simp [splitParams, hnosemi]
    have hosl : '/' ∉ owner.data := fun hm => (howner '/' hm).1 rfl
    have hrsl : '/' ∉ repo.data := fun hm => (hrepo '/' hm).1 rfl
    have hsplit2 : splitOnChar '/' ('/' :: (owner.data ++ '/' :: repo.data))
        = [] :: owner.data :: [repo.data] := by
      have h1 : splitOnChar '/' (owner.data ++ '/' :: repo.data)
          = owner.data :: splitOnChar '/' repo.data :=
        splitOnChar_append_cons '/' owner.data repo.data hosl
      simp [splitOnChar, h1, splitOnChar_of_not_mem '/' repo.data hrsl]
    simp only [urlParsePath, htw, hparams, hsplit2]
    simp [List.filter, ho, hr]
  · intro url h1 h2
    refine ⟨"RepoUrl is not github.com: " ++ url, ?_⟩
    simp only [parse_owner_repo_str]
    rw [if_neg]
    push_neg
    exact ⟨h1, h2⟩
  · intro url hlen
    simp only [parse_owner_repo_str]
    by_cases hn : (urlSplitNetloc url.data).1 = "github.com".data
        ∨ (urlSplitNetloc url.data).1 = "www.github.com".data
    · rw [if_pos hn]
      cases hp : (splitOnChar '/' (urlParsePath (urlSplitNetloc url.data).2)).filter
          (fun x => x ≠ []) with
      | nil => exact ⟨_, rfl⟩
      | cons o t =>
          cases t with
          | nil => exact ⟨_, rfl⟩
          | cons r t' =>
              rw [hp] at hlen
              simp at hlen
              omega
    · rw [if_neg hn]
      exact ⟨_, rfl⟩

/-- Witness for C3: the canonical owner/repo URL parses to the pair, and a
`gitlab.com` URL fails. -/
theorem claim_C3_witness :
    parse_owner_repo_str ("https://github.com/" ++ "acme" ++ "/" ++ "foo")
      = .ok ("acme", "foo")
    ∧ (∃ e, parse_owner_repo_str "https://gitlab.com/a/b" = .error e) := by
  constructor
  · exact claim_C3.1 "acme" "foo" (by decide) (by decide) (by decide) (by decide)
  · exact claim_C3.2.1 "https://gitlab.com/a/b" (by decide) (by decide)

/-! ### Claim C9 -/

/-- C9 (confirmed): when zero valid manifests are collected, the pipeline
still completes and the bytes written to `pluginmaster.json` are exactly the
empty JSON array `[]`. -/
theorem claim_C9 (content : Content) (api : ApiFun) (previous : List JVal)
    (now : Nat) (walk : List DirEntry)
    (h : (collect_valid content api walk).1 = []) :
    (extract_manifests content api previous now walk).1 = []
    ∧ (main_run content api previous now walk).1 = "[]" := by
  have h1 : (extract_manifests content api previous now walk).1 = [] := by
    simp [extract_manifests, get_last_updated_times, h]
  refine ⟨h1, ?_⟩
  show write_master (stableSort manifestLe
    (extract_manifests content api previous now walk).1) = "[]"
  rw [h1]
  rfl

/-- Witness for C9: a plugins tree whose only manifest file is unreadable
produces the output bytes `[]`. -/
theorem claim_C9_witness :
    (main_run (fun _ => none) (fun _ _ _ => .exn) [] 0
      [⟨"./plugins", ["plugins.json"]⟩]).1 = "[]" :=
  (claim_C9 (fun _ => none) (fun _ _ _ => .exn) [] 0
    [⟨"./plugins", ["plugins.json"]⟩] rfl).2

/-! ### Sorting lemmas and claim C7 -/

/-- The sort key components the pipeline actually compares are strings
(Python raises a `TypeError` on any other comparison). -/
def strSortKeys (m : Manifest) : Prop :=
  (∃ s, pyGetD m "InternalName" (.str "") = JVal.str s)
  ∧ (∃ s, pyGetD m "AssemblyVersion" (.str "") = JVal.str s)

theorem charListLt_irrefl : ∀ l : List Char, charListLt l l = false
  | [] => rfl
  | a :: as => by simp [charListLt, lt_irrefl, charListLt_irrefl as]

theorem charListLt_asymm : ∀ l1 l2 : List Char,
    charListLt l1 l2 = true → charListLt l2 l1 = false
  | _, [], h => absurd h (by simp [charListLt])
  | [], _ :: _, _ => rfl
  | a :: as, b :: bs, h => by
      by_cases hab : a < b
      · have hba : ¬(b < a) := fun hc => absurd (lt_trans hab hc) (lt_irrefl a)
        have hne : ¬(b = a) := fun hc => absurd (hc ▸ hab) (lt_irrefl b)
        simp [charListLt, hba, hne]
      · by_cases he : a = b
        · subst he
          simp only [charListLt, lt_irrefl, if_false, if_pos rfl] at h
          simp [charListLt, lt_irrefl, charListLt_asymm as bs h]
        · simp [charListLt, hab, he] at h

theorem charListLt_trans : ∀ l1 l2 l3 : List Char,
    charListLt l1 l2 = true → charListLt l2 l3 = true → charListLt l1 l3 = true
  | _, _, [], _, h2 => absurd h2 (by simp [charListLt])
  | _, [], _ :: _, h1, _ => absurd h1 (by simp [charListLt])
  | [], _ :: _, _ :: _, _, _ => rfl
  | a :: as, b :: bs, c :: cs, h1, h2 => by
      by_cases hab : a < b
      · by_cases hbc : b < c
        · simp [charListLt, lt_trans hab hbc]
        · by_cases hbe : b = c
          · simp [charListLt, hbe ▸ hab]
          · simp [charListLt, hbc, hbe] at h2
      · by_cases hae : a = b
        · subst hae
          simp only [charListLt, lt_irrefl, if_false, if_pos rfl] at h1
          by_cases hbc : a < c
          · simp [charListLt, hbc]
          · by_cases hbe : a = c
            · subst hbe
              simp only [charListLt, lt_irrefl, if_false, if_pos rfl] at h2
              simp [charListLt, lt_irrefl, charListLt_trans as bs cs h1 h2]
            · simp [charListLt, hbc, hbe] at h2
        · simp [charListLt, hab, hae] at h1

theorem charListLt_total : ∀ l1 l2 : List Char, charListLt l1 l2 = false →
    l1 ≠ l2 → charListLt l2 l1 = true
  | [], [], _, hne => absurd rfl hne
  | [], _ :: _, h, _ => by simp [charListLt] at h
  | _ :: _, [], _, _ => by simp [charListLt]
  | a :: as, b :: bs, h, hne => by
      by_cases hab : a < b
      · simp [charListLt, hab] at h
      · by_cases hae : a = b
        · subst hae
          simp only [charListLt, lt_irrefl, if_false, if_pos rfl] at h
          have hne2 : as ≠ bs := fun hc => hne (by rw [hc])
          simp [charListLt, lt_irrefl, charListLt_total as bs h hne2]
        · rcases lt_trichotomy a b with hlt | heq | hgt
          · exact absurd hlt hab
          · exact absurd heq hae
          · simp [charListLt, hgt]

theorem string_eq_of_data {a b : String} (h : a.data = b.data) : a = b := by
  cases a; cases b; exact congrArg String.mk (by simpa using h)

theorem pyStrLt_irrefl (a : String) : pyStrLt a a = false :=
  charListLt_irrefl a.data

theorem pyStrLt_asymm (a b : String) (h : pyStrLt a b = true) :
    pyStrLt b a = false :=
  charListLt_asymm a.data b.data h

theorem pyStrLt_trans (a b c : String) (h1 : pyStrLt a b = true)
    (h2 : pyStrLt b c = true) : pyStrLt a c = true :=
  charListLt_trans a.data b.data c.data h1 h2

theorem pyStrLt_total (a b : String) (h : pyStrLt a b = false) (hne : a ≠ b) :
    pyStrLt b a = true :=
  charListLt_total a.data b.data h (fun hc => hne (string_eq_of_data hc))

theorem pyStrLe_total (a b : String) (h : pyStrLe a b = false) :
    pyStrLe b a = true := by
  simp only [pyStrLe, Bool.or_eq_false_iff, beq_eq_false_iff_ne, ne_eq] at h
  simp only [pyStrLe, Bool.or_eq_true, beq_iff_eq]
  exact Or.inl (pyStrLt_total a b h.1 h.2)

theorem pyStrLe_trans (a b c : String) (h1 : pyStrLe a b = true)
    (h2 : pyStrLe b c = true) : pyStrLe a c = true := by
  simp only [pyStrLe, Bool.or_eq_true, beq_iff_eq] at h1 h2 ⊢
  rcases h1 with h1 | h1
  · rcases h2 with h2 | h2
    · exact Or.inl (pyStrLt_trans a b c h1 h2)
    · exact Or.inl (h2 ▸ h1)
  · subst h1
    exact h2

theorem pyStrLe_antisymm (a b : String) (h1 : pyStrLe a b = true)
    (h2 : pyStrLe b a = true) : a = b := by
  simp only [pyStrLe, Bool.or_eq_true, beq_iff_eq] at h1 h2
  rcases h1 with h1 | h1
  · rcases h2 with h2 | h2
    · exact absurd (pyStrLt_asymm a b h1) (by simp [h2])
    · exact h2.symm
  · exact h1

theorem keyPairLe_str (a1 a2 b1 b2 : String) :
    keyPairLe (.str a1, .str a2) (.str b1, .str b2)
      = (pyStrLt a1 b1 || (a1 == b1 && pyStrLe a2 b2)) := by
  by_cases h : a1 = b1
  · subst h
    simp [keyPairLe, pyEq, jvalLeB, jvalLtB, pyStrLt_irrefl]
  · simp [keyPairLe, pyEq, jvalLeB, jvalLtB, h]

theorem manifestLe_total (a b : Manifest) (ha : strSortKeys a) (hb : strSortKeys b)
    (h : manifestLe a b = false) : manifestLe b a = true := by
  obtain ⟨⟨a1, ha1⟩, ⟨a2, ha2⟩⟩ := ha
  obtain ⟨⟨b1, hb1⟩, ⟨b2, hb2⟩⟩ := hb
  unfold manifestLe sortKey at *
  rw [ha1, ha2, hb1, hb2, keyPairLe_str] at h
  rw [hb1, hb2, ha1, ha2, keyPairLe_str]
  simp only [Bool.or_eq_false_iff, Bool.and_eq_false_iff, beq_eq_false_iff_ne,
    ne_eq] at h
  simp only [Bool.or_eq_true, Bool.and_eq_true, beq_iff_eq]
  rcases h with ⟨hlt, h2⟩
  by_cases he : a1 = b1
  · subst he
    rcases h2 with h2 | h2
    · exact absurd rfl h2
    · exact Or.inr ⟨rfl, pyStrLe_total a2 b2 h2⟩
  · exact Or.inl (pyStrLt_total a1 b1 hlt he)

theorem manifestLe_trans (a b c : Manifest) (ha : strSortKeys a)
    (hb : strSortKeys b) (hc : strSortKeys c)
    (hab : manifestLe a b = true) (hbc : manifestLe b c = true) :
    manifestLe a c = true := by
  obtain ⟨⟨a1, ha1⟩, ⟨a2, ha2⟩⟩ := ha
  obtain ⟨⟨b1, hb1⟩, ⟨b2, hb2⟩⟩ := hb
  obtain ⟨⟨c1, hc1⟩, ⟨c2, hc2⟩⟩ := hc
  unfold manifestLe sortKey at *
  rw [ha1, ha2, hb1, hb2, keyPairLe_str] at hab
  rw [hb1, hb2, hc1, hc2, keyPairLe_str] at hbc
  rw [ha1, ha2, hc1, hc2, keyPairLe_str]
  simp only [Bool.or_eq_true, Bool.and_eq_true, beq_iff_eq, decide_eq_true_eq]
    at hab hbc ⊢
  rcases hab with h1 | ⟨he1, hle1⟩
  · rcases hbc with h2 | ⟨he2, _⟩
    · exact Or.inl (pyStrLt_trans a1 b1 c1 h1 h2)
    · exact Or.inl (he2 ▸ h1)
  · subst he1
    rcases hbc with h2 | ⟨he2, hle2⟩
    · exact Or.inl h2
    · exact Or.inr ⟨he2, pyStrLe_trans a2 b2 c2 hle1 hle2⟩

theorem manifestLe_antisymm_key (a b : Manifest) (ha : strSortKeys a)
    (hb : strSortKeys b) (hab : manifestLe a b = true)
    (hba : manifestLe b a = true) : sortKey a = sortKey b := by
  obtain ⟨⟨a1, ha1⟩, ⟨a2, ha2⟩⟩ := ha
  obtain ⟨⟨b1, hb1⟩, ⟨b2, hb2⟩⟩ := hb
  unfold manifestLe sortKey at *
  rw [ha1, ha2, hb1, hb2, keyPairLe_str] at hab
  rw [hb1, hb2, ha1, ha2, keyPairLe_str] at hba
  rw [ha1, ha2, hb1, hb2]
  simp only [Bool.or_eq_true, Bool.and_eq_true, beq_iff_eq] at hab hba
  rcases hab with h1 | ⟨he1, hle1⟩
  · rcases hba with h2 | ⟨he2, _⟩
    · exact absurd (pyStrLt_asymm a1 b1 h1) (by simp [h2])
    · exact absurd (he2 ▸ h1) (by simp [pyStrLt_irrefl])
  · subst he1
    rcases hba with h2 | ⟨_, hle2⟩
    · exact absurd h2 (by simp [pyStrLt_irrefl])
    · rw [pyStrLe_antisymm a2 b2 hle1 hle2]

theorem insertSorted_perm (le : α → α → Bool) (x : α) :
    ∀ l : List α, (insertSorted le x l).Perm (x :: l)
  | [] => List.Perm.refl _
  | y :: ys => by
      by_cases h : le x y
      · simp [insertSorted, h]
      · simp only [insertSorted, h, Bool.false_eq_true, if_false]
        exact ((insertSorted_perm le x ys).cons y).trans (List.Perm.swap x y ys)

theorem stableSort_perm (le : α → α → Bool) :
    ∀ l : List α, (stableSort le l).Perm l
  | [] => List.Perm.refl _
  | x :: xs =>
      (insertSorted_perm le x (stableSort le xs)).trans
        ((stableSort_perm le xs).cons x)

theorem mem_insertSorted (le : α → α → Bool) (x a : α) (l : List α) :
    a ∈ insertSorted le x l ↔ a = x ∨ a ∈ l := by
  rw [(insertSorted_perm le x l).mem_iff]
  simp

theorem insertSorted_pairwise (le : α → α → Bool) (P : α → Prop)
    (htot : ∀ a b, P a → P b → le a b = false → le b a = true)
    (htrans : ∀ a b c, P a → P b → P c → le a b = true → le b c = true →
      le a c = true)
    (x : α) (hx : P x) :
    ∀ l : List α, (∀ y ∈ l, P y) →
      l.Pairwise (fun a b => le a b = true) →
      (insertSorted le x l).Pairwise (fun a b => le a b = true)
  | [], _, _ => by simp [insertSorted]
  | y :: ys, hP, hp => by
      rcases List.pairwise_cons.mp hp with ⟨hy, hys⟩
      by_cases h : le x y
      · simp only [insertSorted, h, if_true]
        refine List.pairwise_cons.mpr ⟨?_, hp⟩
        intro z hz
        rcases List.mem_cons.mp hz with hz | hz
        · exact hz ▸ h
        · exact htrans x y z hx (hP y (by simp)) (hP z (by simp [hz])) h (hy z hz)
      · simp only [insertSorted, h, Bool.false_eq_true, if_false]
        refine List.pairwise_cons.mpr ⟨?_, ?_⟩
        · intro z hz
          rcases (mem_insertSorted le x z ys).mp hz with hz | hz
          · exact hz ▸ htot x y hx (hP y (by simp)) (by simpa using h)
          · exact hy z hz
        · exact insertSorted_pairwise le P htot htrans x hx ys
            (fun z hz => hP z (by simp [hz])) hys

theorem stableSort_pairwise (le : α → α → Bool) (P : α → Prop)
    (htot : ∀ a b, P a → P b → le a b = false → le b a = true)
    (htrans : ∀ a b c, P a → P b → P c → le a b = true → le b c = true →
      le a c = true) :
    ∀ l : List α, (∀ y ∈ l, P y) →
      (stableSort le l).Pairwise (fun a b => le a b = true)
  | [], _ => by simp [stableSort]
  | x :: xs, hP => by
      have hrec := stableSort_pairwise le P htot htrans xs
        (fun z hz => hP z (by simp [hz]))
      refine insertSorted_pairwise le P htot htrans x (hP x (by simp))
        (stableSort le xs) ?_ hrec
      intro z hz
      exact hP z (by simp [(stableSort_perm le xs).mem_iff.mp hz])

/-- Two pairwise-ordered permutations of each other are equal, provided the
order is antisymmetric on the elements involved. -/
theorem eq_of_perm_of_pairwise {R : α → α → Prop} :
    ∀ {l1 l2 : List α}, l1.Perm l2 → l1.Pairwise R → l2.Pairwise R →
      (∀ a ∈ l1, ∀ b ∈ l1, R a b → R b a → a = b) → l1 = l2 := by
  intro l1
  induction l1 with
  | nil =>
      intro l2 hp _ _ _
      exact List.Perm.nil_eq hp
  | cons a t ih =>
      intro l2 hp h1 h2 hasym
      cases l2 with
      | nil => exact absurd hp.symm (by simp)
      | cons b t2 =>
          rcases List.pairwise_cons.mp h1 with ⟨ha1, ht1⟩
          rcases List.pairwise_cons.mp h2 with ⟨hb2, ht2⟩
          by_cases hab : a = b
          · subst hab
            have := hp.cons_inv
            rw [ih this ht1 ht2
              (fun x hx y hy hxy hyx =>
                hasym x (by simp [hx]) y (by simp [hy]) hxy hyx)]
          · have hamem : a ∈ b :: t2 := hp.mem_iff.mp (by simp)
            have ha2 : a ∈ t2 := by
              rcases List.mem_cons.mp hamem with h | h
              · exact absurd h hab
              · exact h
            have hbmem : b ∈ a :: t := hp.mem_iff.mpr (by simp)
            have hb1 : b ∈ t := by
              rcases List.mem_cons.mp hbmem with h | h
              · exact absurd h.symm hab
              · exact h
            exact absurd
              (hasym a (by simp) b (by simp [hb1]) (ha1 b hb1) (hb2 a ha2)) hab

/-- C7 counterexample data: two plugin directories whose manifests share the
full sort key `("A", "1")` but differ in `Author`; the walks differ only in
discovery order. -/
def c7content : Content := fun p =>
  if p = "./plugins/one/one.json" then
    some [("Author", .str "X"), ("InternalName", .str "A"),
          ("AssemblyVersion", .str "1"), ("RepoUrl", .str "https://github.com/x/a")]
  else if p = "./plugins/two/two.json" then
    some [("Author", .str "Y"), ("InternalName", .str "A"),
          ("AssemblyVersion", .str "1"), ("RepoUrl", .str "https://github.com/x/a")]
  else none

def c7api : ApiFun := fun _ _ _ => .exn

def c7w1 : List DirEntry :=
  [⟨"./plugins", []⟩, ⟨"./plugins/one", ["one.json"]⟩,
   ⟨"./plugins/two", ["two.json"]⟩]

def c7w2 : List DirEntry :=
  [⟨"./plugins", []⟩, ⟨"./plugins/two", ["two.json"]⟩,
   ⟨"./plugins/one", ["one.json"]⟩]

/-- C7 counterexample: the same multiset of collected manifests (the two walks
are permutations of each other and collect permuted manifest lists), yet the
sorted output sequences differ — the stable sort preserves discovery order for
equal `(InternalName, AssemblyVersion)` keys, so the output order is NOT
independent of discovery order. -/
theorem claim_C7_counterexample :
    (run_collection c7content c7api [] 0 c7w1).Perm
      (run_collection c7content c7api [] 0 c7w2)
    ∧ run_collection c7content c7api [] 0 c7w1
        ≠ run_collection c7content c7api [] 0 c7w2 := by
  constructor
  · decide
  · decide

/-- C7 (amended): the written collection is always sorted ascending by the
key pair `(InternalName, AssemblyVersion)` and is a permutation of the
collected manifests; and whenever the key pairs are pairwise distinct (the
spec's own data-model invariant), the sorted sequence is determined by the
multiset alone, i.e. independent of discovery order. -/
theorem claim_C7 (l1 l2 : List Manifest)
    (hstr : ∀ m ∈ l1, strSortKeys m)
    (hdis : l1.Pairwise (fun a b => sortKey a ≠ sortKey b))
    (hperm : l1.Perm l2) :
    (stableSort manifestLe l1).Pairwise (fun a b => manifestLe a b = true)
    ∧ (stableSort manifestLe l1).Perm l1
    ∧ stableSort manifestLe l1 = stableSort manifestLe l2 := by
  have hstr2 : ∀ m ∈ l2, strSortKeys m := fun m hm =>
    hstr m (hperm.mem_iff.mpr hm)
  have hdis2 : l2.Pairwise (fun a b => sortKey a ≠ sortKey b) :=
    (hperm.pairwise_iff (fun h => h ∘ Eq.symm)).mp hdis
  have hs1 := stableSort_pairwise manifestLe strSortKeys manifestLe_total
    manifestLe_trans l1 hstr
  have hs2 := stableSort_pairwise manifestLe strSortKeys manifestLe_total
    manifestLe_trans l2 hstr2
  have hp1 := stableSort_perm manifestLe l1
  have hp2 := stableSort_perm manifestLe l2
  refine ⟨hs1, hp1, ?_⟩
  have hKey1 : (stableSort manifestLe l1).Pairwise (fun a b => sortKey a ≠ sortKey b) :=
    (hp1.pairwise_iff (fun h => h ∘ Eq.symm)).mpr hdis
  refine eq_of_perm_of_pairwise (hp1.trans (hperm.trans hp2.symm)) hs1 hs2 ?_
  intro a hamem b hbmem hab hba
  have haP : strSortKeys a := hstr a (hp1.mem_iff.mp hamem)
  have hbP : strSortKeys b := hstr b (hp1.mem_iff.mp hbmem)
  by_contra hne
  have hkey := manifestLe_antisymm_key a b haP hbP hab hba
  have hforall := List.Pairwise.forall
    (R := fun a b : Manifest => sortKey a ≠ sortKey b)
    (fun {x y} h => h ∘ Eq.symm) hKey1
  exact hforall hamem hbmem hne hkey

/-- Witness for C7: two distinct-key manifests sort to the same sequence from
either discovery order. -/
theorem claim_C7_witness :
    (stableSort manifestLe
      [[("InternalName", JVal.str "B")], [("InternalName", JVal.str "A")]]).Pairwise
        (fun a b => manifestLe a b = true)
    ∧ stableSort manifestLe
        [[("InternalName", JVal.str "B")], [("InternalName", JVal.str "A")]]
      = stableSort manifestLe
        [[("InternalName", JVal.str "A")], [("InternalName", JVal.str "B")]] := by
  have h := claim_C7
    [[("InternalName", JVal.str "B")], [("InternalName", JVal.str "A")]]
    [[("InternalName", JVal.str "A")], [("InternalName", JVal.str "B")]]
    (by intro m hm
        simp only [List.mem_cons, List.not_mem_nil, or_false] at hm
        rcases hm with rfl | rfl
        · exact ⟨⟨"B", by decide⟩, ⟨"", by decide⟩⟩
        · exact ⟨⟨"A", by decide⟩, ⟨"", by decide⟩⟩)
    (by decide)
    (List.Perm.swap _ _ _)
  exact ⟨h.1, h.2.2⟩

/-! ### Enrichment lemmas and claim C6 -/

theorem getD_eq_ite (m : Manifest) (k : String) (d : JVal) :
    pyGetD m k d = (if containsKey m k then pyGet m k else d) := by
  rw [containsKey_eq_isSome]
  cases h : pyLookup m k <;> simp [pyGetD, pyGet, h]

/-- The full shape of a successful `enrich_manifest` run. -/
theorem enrich_manifest_eq (api : ApiFun) (m : Manifest) (av : JVal)
    (ru : String) (o r : String)
    (hav : pyLookup m "AssemblyVersion" = some av)
    (hru : pyLookup m "RepoUrl" = some (.str ru))
    (hok : parse_owner_repo_str (rstripSlashes ru) = .ok (o, r)) :
    enrich_manifest api m = some (
      pySet
        (pySetDefault
          (pySetDefault
            (pySetDefault
              (pySetDefault
                (pySetDefault
                  (pySet m "DownloadLinkInstall"
                    (.str (rstripSlashes ru ++ "/releases/download/v"
                      ++ pyStrip (pyStr av) ++ "/latest.zip")))
                  "IsHide" (.bool false))
                "IsTestingExclusive" (.bool false))
              "ApplicableVersion" (.str "any"))
            "DownloadLinkTesting"
            (pyGet
              (pySetDefault
                (pySetDefault
                  (pySetDefault
                    (pySet m "DownloadLinkInstall"
                      (.str (rstripSlashes ru ++ "/releases/download/v"
                        ++ pyStrip (pyStr av) ++ "/latest.zip")))
                    "IsHide" (.bool false))
                  "IsTestingExclusive" (.bool false))
                "ApplicableVersion" (.str "any"))
              "DownloadLinkInstall"))
          "DownloadLinkUpdate"
          (pyGet
            (pySetDefault
              (pySetDefault
                (pySetDefault
                  (pySetDefault
                    (pySet m "DownloadLinkInstall"
                      (.str (rstripSlashes ru ++ "/releases/download/v"
                        ++ pyStrip (pyStr av) ++ "/latest.zip")))
                    "IsHide" (.bool false))
                  "IsTestingExclusive" (.bool false))
                "ApplicableVersion" (.str "any"))
              "DownloadLinkTesting"
              (pyGet
                (pySetDefault
                  (pySetDefault
                    (pySetDefault
                      (pySet m "DownloadLinkInstall"
                        (.str (rstripSlashes ru ++ "/releases/download/v"
                          ++ pyStrip (pyStr av) ++ "/latest.zip")))
                      "IsHide" (.bool false))
                    "IsTestingExclusive" (.bool false))
                  "ApplicableVersion" (.str "any"))
                "DownloadLinkInstall"))
            "DownloadLinkInstall"))
        "DownloadCount"
        (.num (get_release_download_count (api o r (pyStrip (pyStr av)))))) := by
  simp [enrich_manifest, hav, hru, hok, DEFAULTS, DUPLICATES]

/-- C6 counterexample data: a manifest whose `RepoUrl` validates (trailing
slash keeps the `;` out of the last path segment) but fails to re-parse after
`rstrip("/")` inside `enrich_manifest`. -/
def c6m : Manifest :=
  [("InternalName", .str "Foo"), ("AssemblyVersion", .str "1.0.0"),
   ("RepoUrl", .str "https://github.com/acme/;ver/")]

/-- C6 counterexample: a VALIDATED manifest on which `enrich_manifest` raises
(returns no enrichment) instead of setting `DownloadLinkInstall`: after the
trailing slash is stripped, `urlparse` moves `;ver` into the params and the
path loses its second segment. -/
theorem claim_C6_counterexample :
    (validate_manifest c6m).1 = true
    ∧ enrich_manifest (fun _ _ _ => .exn) c6m = none := by
  exact ⟨by decide, by decide⟩

/-- C6 (amended): for every validated manifest whose `RepoUrl` (a string, by
validation) still parses as a GitHub repo URL after its trailing slashes are
stripped — true of every conventional URL, and needed because enrichment
re-parses the stripped URL — `enrich_manifest` succeeds and sets
`DownloadLinkInstall = {rstripped RepoUrl}/releases/download/v{version}/latest.zip`,
duplicates it into `DownloadLinkTesting`/`DownloadLinkUpdate` when those are
not already present, and fills `IsHide=false`, `IsTestingExclusive=false`,
`ApplicableVersion="any"` when absent. -/
theorem claim_C6 (api : ApiFun) (m : Manifest) (ru : String) (av : JVal)
    (_hval : (validate_manifest m).1 = true)
    (hru : pyLookup m "RepoUrl" = some (.str ru))
    (hav : pyLookup m "AssemblyVersion" = some av)
    (hparse : (parse_owner_repo_str (rstripSlashes ru)).isOk = true) :
    ∃ m', enrich_manifest api m = some m' ∧
      pyGet m' "DownloadLinkInstall"
        = .str (rstripSlashes ru ++ "/releases/download/v"
            ++ pyStrip (pyStr av) ++ "/latest.zip") ∧
      pyGet m' "DownloadLinkTesting"
        = (if containsKey m "DownloadLinkTesting" then pyGet m "DownloadLinkTesting"
           else pyGet m' "DownloadLinkInstall") ∧
      pyGet m' "DownloadLinkUpdate"
        = (if containsKey m "DownloadLinkUpdate" then pyGet m "DownloadLinkUpdate"
           else pyGet m' "DownloadLinkInstall") ∧
      pyGet m' "IsHide"
        = (if containsKey m "IsHide" then pyGet m "IsHide" else .bool false) ∧
      pyGet m' "IsTestingExclusive"
        = (if containsKey m "IsTestingExclusive" then pyGet m "IsTestingExclusive"
           else .bool false) ∧
      pyGet m' "ApplicableVersion"
        = (if containsKey m "ApplicableVersion" then pyGet m "ApplicableVersion"
           else .str "any") := by
  cases hok : parse_owner_repo_str (rstripSlashes ru) with
  | error e => rw [hok] at hparse; exact absurd hparse (by simp [Except.isOk, Except.toBool])
  | ok pr =>
      obtain ⟨o, r⟩ := pr
      have henr := enrich_manifest_eq api m av ru o r hav hru hok
      set link : JVal := .str (rstripSlashes ru ++ "/releases/download/v"
        ++ pyStrip (pyStr av) ++ "/latest.zip") with hlink
      set m1 : Manifest := pySet m "DownloadLinkInstall" link with hm1
      set m2 : Manifest := pySetDefault (pySetDefault (pySetDefault m1
        "IsHide" (.bool false)) "IsTestingExclusive" (.bool false))
        "ApplicableVersion" (.str "any") with hm2
      set m3 : Manifest := pySetDefault m2 "DownloadLinkTesting"
        (pyGet m2 "DownloadLinkInstall") with hm3
      set m4 : Manifest := pySetDefault m3 "DownloadLinkUpdate"
        (pyGet m3 "DownloadLinkInstall") with hm4
      set m' : Manifest := pySet m4 "DownloadCount"
        (.num (get_release_download_count (api o r (pyStrip (pyStr av))))) with hm'
      refine ⟨m', henr, ?_, ?_, ?_, ?_, ?_, ?_⟩
      · rw [hm', pyGet_pySet_other _ _ _ _ (by decide), hm4,
          pyGet_pySetDefault_other _ _ _ _ (by decide), hm3,
          pyGet_pySetDefault_other _ _ _ _ (by decide), hm2,
          pyGet_pySetDefault_other _ _ _ _ (by decide),
          pyGet_pySetDefault_other _ _ _ _ (by decide),
          pyGet_pySetDefault_other _ _ _ _ (by decide), hm1,
          pyGet_pySet_same]
      · have hDLI2 : pyGet m2 "DownloadLinkInstall" = link := by
          rw [hm2, pyGet_pySetDefault_other _ _ _ _ (by decide),
            pyGet_pySetDefault_other _ _ _ _ (by decide),
            pyGet_pySetDefault_other _ _ _ _ (by decide), hm1, pyGet_pySet_same]
        have hDLIm' : pyGet m' "DownloadLinkInstall" = link := by
          rw [hm', pyGet_pySet_other _ _ _ _ (by decide), hm4,
            pyGet_pySetDefault_other _ _ _ _ (by decide), hm3,
            pyGet_pySetDefault_other _ _ _ _ (by decide), hDLI2]
        have hc2 : containsKey m2 "DownloadLinkTesting"
            = containsKey m "DownloadLinkTesting" := by
          rw [hm2, containsKey_pySetDefault_other _ _ _ _ (by decide),
            containsKey_pySetDefault_other _ _ _ _ (by decide),
            containsKey_pySetDefault_other _ _ _ _ (by decide), hm1,
            containsKey_pySet_other _ _ _ _ (by decide)]
        have hg2 : pyGet m2 "DownloadLinkTesting" = pyGet m "DownloadLinkTesting" := by
          rw [hm2, pyGet_pySetDefault_other _ _ _ _ (by decide),
            pyGet_pySetDefault_other _ _ _ _ (by decide),
            pyGet_pySetDefault_other _ _ _ _ (by decide), hm1,
            pyGet_pySet_other _ _ _ _ (by decide)]
        rw [hDLIm', hm', pyGet_pySet_other _ _ _ _ (by decide), hm4,
          pyGet_pySetDefault_other _ _ _ _ (by decide), hm3,
          pyGet_pySetDefault_same, getD_eq_ite, hc2, hg2, hDLI2]
      · have hDLI2 : pyGet m2 "DownloadLinkInstall" = link := by
          rw [hm2, pyGet_pySetDefault_other _ _ _ _ (by decide),
            pyGet_pySetDefault_other _ _ _ _ (by decide),
            pyGet_pySetDefault_other _ _ _ _ (by decide), hm1, pyGet_pySet_same]
        have hDLI3 : pyGet m3 "DownloadLinkInstall" = link := by
          rw [hm3, pyGet_pySetDefault_other _ _ _ _ (by decide), hDLI2]
        have hDLIm' : pyGet m' "DownloadLinkInstall" = link := by
          rw [hm', pyGet_pySet_other _ _ _ _ (by decide), hm4,
            pyGet_pySetDefault_other _ _ _ _ (by decide), hDLI3]
        have hc3 : containsKey m3 "DownloadLinkUpdate"
            = containsKey m "DownloadLinkUpdate" := by
          rw [hm3, containsKey_pySetDefault_other _ _ _ _ (by decide), hm2,
            containsKey_pySetDefault_other _ _ _ _ (by decide),
            containsKey_pySetDefault_other _ _ _ _ (by decide),
            containsKey_pySetDefault_other _ _ _ _ (by decide), hm1,
            containsKey_pySet_other _ _ _ _ (by decide)]
        have hg3 : pyGet m3 "DownloadLinkUpdate" = pyGet m "DownloadLinkUpdate" := by
          rw [hm3, pyGet_pySetDefault_other _ _ _ _ (by decide), hm2,
            pyGet_pySetDefault_other _ _ _ _ (by decide),
            pyGet_pySetDefault_other _ _ _ _ (by decide),
            pyGet_pySetDefault_other _ _ _ _ (by decide), hm1,
            pyGet_pySet_other _ _ _ _ (by decide)]
        rw [hDLIm', hm', pyGet_pySet_other _ _ _ _ (by decide), hm4,
          pyGet_pySetDefault_same, getD_eq_ite, hc3, hg3, hDLI3]
      · rw [hm', pyGet_pySet_other _ _ _ _ (by decide), hm4,
          pyGet_pySetDefault_other _ _ _ _ (by decide), hm3,
          pyGet_pySetDefault_other _ _ _ _ (by decide), hm2,
          pyGet_pySetDefault_other _ _ _ _ (by decide),
          pyGet_pySetDefault_other _ _ _ _ (by decide),
          pyGet_pySetDefault_same, getD_eq_ite, hm1,
          containsKey_pySet_other _ _ _ _ (by decide),
          pyGet_pySet_other _ _ _ _ (by decide)]
      · rw [hm', pyGet_pySet_other _ _ _ _ (by decide), hm4,
          pyGet_pySetDefault_other _ _ _ _ (by decide), hm3,
          pyGet_pySetDefault_other _ _ _ _ (by decide), hm2,
          pyGet_pySetDefault_other _ _ _ _ (by decide),
          pyGet_pySetDefault_same, getD_eq_ite,
          containsKey_pySetDefault_other _ _ _ _ (by decide), hm1,
          containsKey_pySet_other _ _ _ _ (by decide),
          pyGet_pySetDefault_other _ _ _ _ (by decide),
          pyGet_pySet_other _ _ _ _ (by decide)]
      · rw [hm', pyGet_pySet_other _ _ _ _ (by decide), hm4,
          pyGet_pySetDefault_other _ _ _ _ (by decide), hm3,
          pyGet_pySetDefault_other _ _ _ _ (by decide), hm2,
          pyGet_pySetDefault_same, getD_eq_ite,
          containsKey_pySetDefault_other _ _ _ _ (by decide),
          containsKey_pySetDefault_other _ _ _ _ (by decide), hm1,
          containsKey_pySet_other _ _ _ _ (by decide),
          pyGet_pySetDefault_other _ _ _ _ (by decide),
          pyGet_pySetDefault_other _ _ _ _ (by decide),
          pyGet_pySet_other _ _ _ _ (by decide)]

/-- The scenario manifest of the spec. -/
def c6scen : Manifest :=
  [("InternalName", .str "Foo"), ("AssemblyVersion", .str "1.0.0"),
   ("RepoUrl", .str "https://github.com/acme/foo")]

/-- Witness for C6: the spec's scenario manifest produces exactly the expected
install link, with the testing and update links equal to it, `IsHide = false`
and `ApplicableVersion = "any"`. -/
theorem claim_C6_witness :
    (validate_manifest c6scen).1 = true ∧
    ∃ m', enrich_manifest (fun _ _ _ => .exn) c6scen = some m' ∧
      pyGet m' "DownloadLinkInstall"
        = .str "https://github.com/acme/foo/releases/download/v1.0.0/latest.zip" ∧
      pyGet m' "DownloadLinkTesting" = pyGet m' "DownloadLinkInstall" ∧
      pyGet m' "DownloadLinkUpdate" = pyGet m' "DownloadLinkInstall" ∧
      pyGet m' "IsHide" = .bool false ∧
      pyGet m' "ApplicableVersion" = .str "any" := by
  refine ⟨by decide, ?_⟩
  obtain ⟨m', h1, h2, h3, h4, h5, _, h7⟩ :=
    claim_C6 (fun _ _ _ => .exn) c6scen "https://github.com/acme/foo"
      (.str "1.0.0") (by decide) (by decide) (by decide) (by decide)
  refine ⟨m', h1, ?_, ?_, ?_, ?_, ?_⟩
  · rw [h2]; decide
  · rw [h3, if_neg (by decide)]
  · rw [h4, if_neg (by decide)]
  · rw [h5, if_neg (by decide)]
  · rw [h7, if_neg (by decide)]

/-! ### Inversion lemmas for the collection loop, and claim C10 -/

/-- A successful enrichment determines the field lookups and parse result. -/
theorem enrich_manifest_some_inv (api : ApiFun) (m m' : Manifest)
    (h : enrich_manifest api m = some m') :
    ∃ av ru o r,
      pyLookup m "AssemblyVersion" = some av ∧
      pyLookup m "RepoUrl" = some (.str ru) ∧
      parse_owner_repo_str (rstripSlashes ru) = .ok (o, r) := by
  unfold enrich_manifest at h
  cases hav : pyLookup m "AssemblyVersion" with
  | none => rw [hav] at h; simp at h
  | some av =>
      cases hru : pyLookup m "RepoUrl" with
      | none => rw [hav, hru] at h; simp at h
      | some rv =>
          cases rv with
          | str ru =>
              rw [hav, hru] at h
              simp only at h
              cases hok : parse_owner_repo_str (rstripSlashes ru) with
              | error e => rw [hok] at h; simp at h
              | ok pr => exact ⟨av, ru, pr.1, pr.2, rfl, rfl, by rw [hok]⟩
          | null => rw [hav, hru] at h; simp at h
          | bool b => rw [hav, hru] at h; simp at h
          | num n => rw [hav, hru] at h; simp at h
          | arr xs => rw [hav, hru] at h; simp at h
          | obj kvs => rw [hav, hru] at h; simp at h

/-- A directory whose basename does not match any contained `X.json` is
silently ignored. -/
theorem processDir_no_candidate (content : Content) (api : ApiFun)
    (d : DirEntry) (h : manifestCandidate d = none) :
    processDir content api d = (none, []) := by
  unfold processDir
  rw [h]

/-- An unreadable or invalid-JSON manifest file is excluded with exactly one
skip diagnostic. -/
theorem processDir_unreadable (content : Content) (api : ApiFun)
    (d : DirEntry) (p : String) (h : manifestCandidate d = some p)
    (h2 : content p = none) :
    processDir content api d
      = (none, ["[skip] " ++ p ++ ": invalid JSON or unreadable."]) := by
  unfold processDir
  simp [h, h2]

/-- An invalid manifest is excluded, with one skip line per diagnostic. -/
theorem processDir_invalid (content : Content) (api : ApiFun)
    (d : DirEntry) (p : String) (raw : Manifest)
    (h : manifestCandidate d = some p) (h2 : content p = some raw)
    (h3 : (validate_manifest (trim_manifest raw)).1 = false) :
    processDir content api d
      = (none, (validate_manifest (trim_manifest raw)).2.map
          (fun e => "[skip] " ++ p ++ ": " ++ e)) := by
  unfold processDir
  simp [h, h2, h3]

/-- A validated, successfully enriched manifest is kept with no diagnostics. -/
theorem processDir_valid_enriched (content : Content) (api : ApiFun)
    (d : DirEntry) (p : String) (raw x : Manifest)
    (h : manifestCandidate d = some p) (h2 : content p = some raw)
    (h3 : (validate_manifest (trim_manifest raw)).1 = true)
    (h4 : enrich_manifest api (trim_manifest raw) = some x) :
    processDir content api d = (some x, []) := by
  unfold processDir
  simp [h, h2, h3, h4]

/-- A validated manifest whose enrichment raises is excluded with one skip
diagnostic. -/
theorem processDir_enrich_failed (content : Content) (api : ApiFun)
    (d : DirEntry) (p : String) (raw : Manifest)
    (h : manifestCandidate d = some p) (h2 : content p = some raw)
    (h3 : (validate_manifest (trim_manifest raw)).1 = true)
    (h4 : enrich_manifest api (trim_manifest raw) = none) :
    processDir content api d
      = (none, ["[skip] " ++ p ++ ": enrichment failed."]) := by
  unfold processDir
  simp [h, h2, h3, h4]

/-- A manifest contributed by one walked directory comes from a trimmed,
validated, successfully enriched raw manifest. -/
theorem processDir_some_inv (content : Content) (api : ApiFun) (d : DirEntry)
    (m : Manifest) (h : (processDir content api d).1 = some m) :
    ∃ p raw, manifestCandidate d = some p ∧ content p = some raw ∧
      (validate_manifest (trim_manifest raw)).1 = true ∧
      enrich_manifest api (trim_manifest raw) = some m := by
  cases hc : manifestCandidate d with
  | none => rw [processDir_no_candidate content api d hc] at h; simp at h
  | some p =>
      cases hcon : content p with
      | none => rw [processDir_unreadable content api d p hc hcon] at h; simp at h
      | some raw =>
          by_cases hv : (validate_manifest (trim_manifest raw)).1
          · cases he : enrich_manifest api (trim_manifest raw) with
            | none =>
                rw [processDir_enrich_failed content api d p raw hc hcon hv he] at h
                simp at h
            | some x =>
                rw [processDir_valid_enriched content api d p raw x hc hcon hv he] at h
                simp only [Option.some.injEq] at h
                exact ⟨p, raw, rfl, hcon, hv, by rw [he, h]⟩
          · rw [processDir_invalid content api d p raw hc hcon
              (by simpa using hv)] at h
            simp at h

/-- Every manifest in the pre-timestamp collection is a trimmed, validated,
enriched raw manifest of some walked directory. -/
theorem mem_collect_valid (content : Content) (api : ApiFun)
    (walk : List DirEntry) (m : Manifest)
    (h : m ∈ (collect_valid content api walk).1) :
    ∃ raw, (validate_manifest (trim_manifest raw)).1 = true ∧
      enrich_manifest api (trim_manifest raw) = some m := by
  induction walk with
  | nil => simp [collect_valid] at h
  | cons d ds ih =>
      simp only [collect_valid] at h
      cases hs : (processDir content api d).1 with
      | none => rw [hs] at h; exact ih h
      | some x =>
          rw [hs] at h
          rcases List.mem_cons.mp h with hm | hm
          · obtain ⟨p, raw, _, _, hv, he⟩ :=
              processDir_some_inv content api d x hs
            exact ⟨raw, hv, hm ▸ he⟩
          · exact ih hm

/-- The two duplicated download links of a freshly enriched trimmed manifest
equal `DownloadLinkInstall`. -/
theorem enrich_trim_links_eq (api : ApiFun) (raw : Manifest) (m : Manifest)
    (h : enrich_manifest api (trim_manifest raw) = some m) :
    pyGet m "DownloadLinkTesting" = pyGet m "DownloadLinkInstall" ∧
    pyGet m "DownloadLinkUpdate" = pyGet m "DownloadLinkInstall" := by
  obtain ⟨av, ru, o, r, hav, hru, hok⟩ := enrich_manifest_some_inv api _ m h
  have heq := enrich_manifest_eq api (trim_manifest raw) av ru o r hav hru hok
  rw [h] at heq
  have hm := Option.some.inj heq
  have hctT : containsKey (trim_manifest raw) "DownloadLinkTesting" = false := by
    cases hb : containsKey (trim_manifest raw) "DownloadLinkTesting"
    · rfl
    · exact absurd (containsKey_trim_mem raw _ hb) (by decide)
  have hctU : containsKey (trim_manifest raw) "DownloadLinkUpdate" = false := by
    cases hb : containsKey (trim_manifest raw) "DownloadLinkUpdate"
    · rfl
    · exact absurd (containsKey_trim_mem raw _ hb) (by decide)
  set t := trim_manifest raw with ht
  set link : JVal := .str (rstripSlashes ru ++ "/releases/download/v"
    ++ pyStrip (pyStr av) ++ "/latest.zip") with hlink
  set m1 : Manifest := pySet t "DownloadLinkInstall" link with hm1
  set m2 : Manifest := pySetDefault (pySetDefault (pySetDefault m1
    "IsHide" (.bool false)) "IsTestingExclusive" (.bool false))
    "ApplicableVersion" (.str "any") with hm2
  set m3 : Manifest := pySetDefault m2 "DownloadLinkTesting"
    (pyGet m2 "DownloadLinkInstall") with hm3
  set m4 : Manifest := pySetDefault m3 "DownloadLinkUpdate"
    (pyGet m3 "DownloadLinkInstall") with hm4
  have hc2T : containsKey m2 "DownloadLinkTesting" = false := by
    rw [hm2, containsKey_pySetDefault_other _ _ _ _ (by decide),
      containsKey_pySetDefault_other _ _ _ _ (by decide),
      containsKey_pySetDefault_other _ _ _ _ (by decide), hm1,
      containsKey_pySet_other _ _ _ _ (by decide)]
    exact hctT
  have hc3U : containsKey m3 "DownloadLinkUpdate" = false := by
    rw [hm3, containsKey_pySetDefault_other _ _ _ _ (by decide), hm2,
      containsKey_pySetDefault_other _ _ _ _ (by decide),
      containsKey_pySetDefault_other _ _ _ _ (by decide),
      containsKey_pySetDefault_other _ _ _ _ (by decide), hm1,
      containsKey_pySet_other _ _ _ _ (by decide)]
    exact hctU
  have hDLI3 : pyGet m3 "DownloadLinkInstall" = pyGet m2 "DownloadLinkInstall" := by
    rw [hm3, pyGet_pySetDefault_other _ _ _ _ (by decide)]
  have hDLIm : pyGet m "DownloadLinkInstall" = pyGet m2 "DownloadLinkInstall" := by
    rw [hm, pyGet_pySet_other _ _ _ _ (by decide),
      pyGet_pySetDefault_other _ _ _ _ (by decide), hDLI3]
  constructor
  · rw [hDLIm, hm, pyGet_pySet_other _ _ _ _ (by decide),
      pyGet_pySetDefault_other _ _ _ _ (by decide),
      pyGet_pySetDefault_same, getD_eq_ite, hc2T, if_neg (by simp)]
  · rw [hDLIm, hm, pyGet_pySet_other _ _ _ _ (by decide),
      pyGet_pySetDefault_same, getD_eq_ite, hc3U, if_neg (by simp), hDLI3]

/-- C10 (confirmed): in the written collection, `DownloadLinkTesting` and
`DownloadLinkUpdate` always equal `DownloadLinkInstall`, no matter what the
raw manifest files contained: trimming drops both keys (they are not in the
allow-list), so the `setdefault` duplicate-fill always fires. -/
theorem claim_C10 (content : Content) (api : ApiFun) (previous : List JVal)
    (now : Nat) (walk : List DirEntry) :
    ∀ m ∈ run_collection content api previous now walk,
      pyGet m "DownloadLinkTesting" = pyGet m "DownloadLinkInstall" ∧
      pyGet m "DownloadLinkUpdate" = pyGet m "DownloadLinkInstall" := by
  intro m hm
  have hm2 : m ∈ (extract_manifests content api previous now walk).1 :=
    (stableSort_perm manifestLe _).mem_iff.mp hm
  simp only [extract_manifests, get_last_updated_times, List.mem_map] at hm2
  obtain ⟨x, hx, hstamp⟩ := hm2
  obtain ⟨raw, _, he⟩ := mem_collect_valid content api walk x hx
  obtain ⟨hT, hU⟩ := enrich_trim_links_eq api raw x he
  subst hstamp
  rw [pyGet_stampManifest_other _ _ _ _ (by decide),
    pyGet_stampManifest_other _ _ _ _ (by decide),
    pyGet_stampManifest_other _ _ _ _ (by decide)]
  exact ⟨hT, hU⟩

/-- C10 witness data: a raw manifest that supplies its OWN
`DownloadLinkTesting`/`DownloadLinkUpdate` values. -/
def c10wc : Content := fun p =>
  if p = "./plugins/one/one.json" then
    some [("InternalName", .str "Foo"), ("AssemblyVersion", .str "1.0.0"),
          ("RepoUrl", .str "https://github.com/acme/foo"),
          ("DownloadLinkTesting", .str "https://evil.example/own.zip"),
          ("DownloadLinkUpdate", .str "https://evil.example/own2.zip")]
  else none

def c10ww : List DirEntry :=
  [⟨"./plugins", []⟩, ⟨"./plugins/one", ["one.json"]⟩]

/-- Witness for C10: the authored link values are discarded and all three
links come out equal. -/
theorem claim_C10_witness :
    pyGet ((run_collection c10wc (fun _ _ _ => HttpResult.exn) [] 0
        c10ww).headD []) "DownloadLinkTesting"
      = pyGet ((run_collection c10wc (fun _ _ _ => HttpResult.exn) [] 0
        c10ww).headD []) "DownloadLinkInstall"
    ∧ pyGet ((run_collection c10wc (fun _ _ _ => HttpResult.exn) [] 0
        c10ww).headD []) "DownloadLinkUpdate"
      = pyGet ((run_collection c10wc (fun _ _ _ => HttpResult.exn) [] 0
        c10ww).headD []) "DownloadLinkInstall" :=
  claim_C10 c10wc (fun _ _ _ => HttpResult.exn) [] 0 c10ww _ (by decide)

/-! ### Claim C5 -/

/-- C5 (confirmed): `validate_manifest` is a total function of the manifest (no
exception can escape it: the model needs no error monad), it reports one
`missing required key` diagnostic for EVERY missing-or-empty required field
(not only the first), its verdict is exactly "no diagnostics collected", and a
failing verdict excludes the manifest from further processing, logging every
diagnostic. -/
theorem claim_C5 :
    (∀ m : Manifest, ∀ k ∈ REQUIRED_KEYS,
      (containsKey m k = false ∨ isEmptyish (pyGet m k) = true) →
      ("missing required key: " ++ k) ∈ (validate_manifest m).2)
    ∧ (∀ m : Manifest, (validate_manifest m).1 = (validate_manifest m).2.isEmpty)
    ∧ (∀ (content : Content) (api : ApiFun) (d : DirEntry) (p : String)
        (raw : Manifest),
        manifestCandidate d = some p → content p = some raw →
        (validate_manifest (trim_manifest raw)).1 = false →
        (processDir content api d).1 = none ∧
        (processDir content api d).2
          = (validate_manifest (trim_manifest raw)).2.map
              (fun e => "[skip] " ++ p ++ ": " ++ e)) := by
  refine ⟨?_, ?_, ?_⟩
  · intro m k hk hcond
    have hcond' : (!(containsKey m k) || isEmptyish (pyGet m k)) = true := by
      rcases hcond with h | h <;> simp [h]
    have hmem1 : ("missing required key: " ++ k) ∈ REQUIRED_KEYS.foldl
        (fun errs k =>
          if !(containsKey m k) || isEmptyish (pyGet m k)
          then errs ++ ["missing required key: " ++ k] else errs) [] := by
      have hmono : ∀ (errs : List String) (k' : String),
          ("missing required key: " ++ k) ∈ errs →
          ("missing required key: " ++ k) ∈
            (if !(containsKey m k') || isEmptyish (pyGet m k')
             then errs ++ ["missing required key: " ++ k'] else errs) := by
        intro errs k' hmem
        split_ifs
        · exact List.mem_append_left _ hmem
        · exact hmem
      have hself : ∀ errs : List String,
          ("missing required key: " ++ k) ∈
            (if !(containsKey m k) || isEmptyish (pyGet m k)
             then errs ++ ["missing required key: " ++ k] else errs) := by
        intro errs
        rw [if_pos hcond']
        exact List.mem_append_right _ (by simp)
      simp only [REQUIRED_KEYS, List.mem_cons, List.mem_singleton,
        List.not_mem_nil, or_false] at hk
      rcases hk with rfl | rfl | rfl
      · simp only [REQUIRED_KEYS, List.foldl_cons, List.foldl_nil]
        exact hmono _ _ (hmono _ _ (hself []))
      · simp only [REQUIRED_KEYS, List.foldl_cons, List.foldl_nil]
        exact hmono _ _ (hself _)
      · simp only [REQUIRED_KEYS, List.foldl_cons, List.foldl_nil]
        exact hself _
    have hstep : ∀ (msg x : String) (c : Prop) [Decidable c] (l : List String),
        msg ∈ l → msg ∈ (if c then l ++ [x] else l) := by
      intro msg x c hc l h
      split_ifs
      · exact List.mem_append_left _ h
      · exact h
    unfold validate_manifest
    simp only []
    cases hp : parse_owner_repo (pyGetD m "RepoUrl" (.str "")) with
    | ok pr =>
        obtain ⟨o, r⟩ := pr
        exact hstep _ _ _ _ (hstep _ _ _ _ hmem1)
    | error e =>
        exact hstep _ _ _ _ (List.mem_append_left _ hmem1)
  · intro m
    rfl
  · intro content api d p raw hc hcon hval
    rw [processDir_invalid content api d p raw hc hcon hval]
    exact ⟨rfl, rfl⟩

/-- Witness for C5: a manifest missing all three required keys reports the
`InternalName` diagnostic (among others) and its directory contributes no
manifest. -/
theorem claim_C5_witness :
    ("missing required key: " ++ "InternalName")
      ∈ (validate_manifest [("Name", JVal.str "x")]).2
    ∧ (processDir (fun _ => some [("Name", JVal.str "x")]) (fun _ _ _ => .exn)
        ⟨"./plugins/one", ["one.json"]⟩).1 = none := by
  refine ⟨claim_C5.1 [("Name", JVal.str "x")] "InternalName" (by decide)
    (Or.inl (by decide)), ?_⟩
  exact (claim_C5.2.2 (fun _ => some [("Name", JVal.str "x")]) (fun _ _ _ => .exn)
    ⟨"./plugins/one", ["one.json"]⟩ "./plugins/one/one.json"
    [("Name", JVal.str "x")] (by decide) rfl (by decide)).1

/-! ### Claim C4 -/

/-- Replacing the API with one that always raises changes only the
`DownloadCount` value of a successful enrichment; it never turns success into
failure or vice versa. -/
theorem enrich_manifest_failApi (api : ApiFun) (m : Manifest) :
    enrich_manifest (fun _ _ _ => HttpResult.exn) m
      = (enrich_manifest api m).map (fun x => pySet x "DownloadCount" (.num 0)) := by
  unfold enrich_manifest
  cases hav : pyLookup m "AssemblyVersion" with
  | none => rfl
  | some av =>
      cases hru : pyLookup m "RepoUrl" with
      | none => rfl
      | some rv =>
          cases rv with
          | str ru =>
              simp only []
              cases hok : parse_owner_repo_str (rstripSlashes ru) with
              | error e => rfl
              | ok pr =>
                  simp only [Option.map_some']
                  rw [pySet_pySet_same]
                  rfl
          | null => rfl
          | bool b => rfl
          | num n => rfl
          | arr xs => rfl
          | obj kvs => rfl

/-- One directory step under the always-failing API: same verdict and logs,
and the kept manifest (if any) differs only in `DownloadCount`. -/
theorem processDir_failApi (content : Content) (api : ApiFun) (d : DirEntry) :
    processDir content (fun _ _ _ => HttpResult.exn) d
      = ((processDir content api d).1.map
          (fun x => pySet x "DownloadCount" (.num 0)),
         (processDir content api d).2) := by
  cases hc : manifestCandidate d with
  | none =>
      rw [processDir_no_candidate content api d hc,
        processDir_no_candidate content _ d hc]
      rfl
  | some p =>
      cases hcon : content p with
      | none =>
          rw [processDir_unreadable content api d p hc hcon,
            processDir_unreadable content _ d p hc hcon]
          rfl
      | some raw =>
          by_cases hv : (validate_manifest (trim_manifest raw)).1
          · cases he : enrich_manifest api (trim_manifest raw) with
            | none =>
                have he' : enrich_manifest (fun _ _ _ => HttpResult.exn)
                    (trim_manifest raw) = none := by
                  rw [enrich_manifest_failApi api, he]; rfl
                rw [processDir_enrich_failed content api d p raw hc hcon hv he,
                  processDir_enrich_failed content _ d p raw hc hcon hv he']
                rfl
            | some x =>
                have he' : enrich_manifest (fun _ _ _ => HttpResult.exn)
                    (trim_manifest raw)
                    = some (pySet x "DownloadCount" (.num 0)) := by
                  rw [enrich_manifest_failApi api, he]; rfl
                rw [processDir_valid_enriched content api d p raw x hc hcon hv he,
                  processDir_valid_enriched content _ d p raw _ hc hcon hv he']
                rfl
          · have hvf : (validate_manifest (trim_manifest raw)).1 = false := by
              simpa using hv
            rw [processDir_invalid content api d p raw hc hcon hvf,
              processDir_invalid content _ d p raw hc hcon hvf]
            rfl

/-- Under the always-failing API the collection is the same list with every
`DownloadCount` replaced by 0. -/
theorem collect_valid_failApi (content : Content) (api : ApiFun)
    (walk : List DirEntry) :
    (collect_valid content (fun _ _ _ => HttpResult.exn) walk).1
      = (collect_valid content api walk).1.map
          (fun m => pySet m "DownloadCount" (.num 0)) := by
  induction walk with
  | nil => rfl
  | cons d ds ih =>
      simp only [collect_valid, processDir_failApi content api d, ih]
      cases (processDir content api d).1 <;> rfl

/-- C4 (confirmed): `get_release_download_count` never raises (it is a total
function of the exchange) and returns 0 on a raised request (network failure
or timeout), on any non-200 status, and on an unparsable body; and a manifest
whose enrichment triggered the call is still included in the output — the
collection under an always-failing API is the same list with every
`DownloadCount` replaced by 0, and every written manifest then carries
`DownloadCount = 0`. -/
theorem claim_C4 :
    (get_release_download_count .exn = 0)
    ∧ (∀ (st : Nat) (body : Option JVal), st ≠ 200 →
        get_release_download_count (.resp st body) = 0)
    ∧ (∀ st : Nat, get_release_download_count (.resp st none) = 0)
    ∧ (∀ (content : Content) (api : ApiFun) (walk : List DirEntry),
        (collect_valid content (fun _ _ _ => HttpResult.exn) walk).1
          = (collect_valid content api walk).1.map
              (fun m => pySet m "DownloadCount" (.num 0)))
    ∧ (∀ (content : Content) (previous : List JVal) (now : Nat)
        (walk : List DirEntry),
        ∀ m ∈ run_collection content (fun _ _ _ => HttpResult.exn)
            previous now walk,
          pyGet m "DownloadCount" = .num 0) := by
  refine ⟨rfl, ?_, ?_, collect_valid_failApi, ?_⟩
  · intro st body h
    simp [get_release_download_count, h]
  · intro st
    by_cases h : st = 200 <;> simp [get_release_download_count, h]
  · intro content previous now walk m hm
    have hm2 : m ∈ (extract_manifests content (fun _ _ _ => HttpResult.exn)
        previous now walk).1 :=
      (stableSort_perm manifestLe _).mem_iff.mp hm
    simp only [extract_manifests, get_last_updated_times, List.mem_map] at hm2
    obtain ⟨x, hx, hstamp⟩ := hm2
    rw [collect_valid_failApi content (fun _ _ _ => HttpResult.exn) walk] at hx
    obtain ⟨y, _, hy⟩ := List.mem_map.mp hx
    subst hstamp
    rw [pyGet_stampManifest_other _ _ _ _ (by decide), ← hy,
      pyGet_pySet_same]

/-- Witness for C4: an HTTP 500 yields count 0, and the single valid manifest
of a concrete run under the always-failing API is still written, with
`DownloadCount = 0`. -/
theorem claim_C4_witness :
    get_release_download_count (.resp 500 (some .null)) = 0
    ∧ pyGet ((run_collection c7content (fun _ _ _ => HttpResult.exn) [] 0
        c7w1).headD []) "DownloadCount" = .num 0 := by
  constructor
  · exact claim_C4.2.1 500 (some .null) (by decide)
  · exact claim_C4.2.2.2.2 c7content [] 0 c7w1 _ (by decide)

/-! ### Claim C8 -/

/-- Strip a literal leading character run, if present. -/
def stripLead : List Char → List Char → Option (List Char)
  | [], rest => some rest
  | p :: ps, c :: cs => if c = p then stripLead ps cs else none
  | _ :: _, [] => none

/-- Modelled from the claim's words (the claim side of C8, for comparison with
the code): the name `X` of a direct subdirectory `./plugins/X` of the plugins
root — a single nonempty path segment below the root. -/
def subdirPluginName (dirpath : String) : Option String :=
  match stripLead "./plugins/".data dirpath.data with
  | some x => if x ≠ [] ∧ '/' ∉ x then some (⟨x⟩ : String) else none
  | none => none

/-- The manifest paths the collector actually considers: every walked
directory (root included) whose basename `X` has `X.json` among its files. -/
def manifestCandidatePaths (walk : List DirEntry) : List String :=
  walk.filterMap manifestCandidate

/-- Modelled from the claim's words (the claim side of C8, for comparison with
the code): the paths where a subdirectory `X` of the plugins root contains a
file named `X.json`. -/
def collectorClaimPaths (walk : List DirEntry) : List String :=
  walk.filterMap (fun d =>
    match subdirPluginName d.dirpath with
    | some x =>
        if (x ++ ".json") ∈ d.filenames then some (pathJoin d.dirpath (x ++ ".json"))
        else none
    | none => none)

def c8walk : List DirEntry := [⟨"./plugins", ["plugins.json"]⟩]

def c8walkNested : List DirEntry := [⟨"./plugins/outer/inner", ["inner.json"]⟩]

/-- C8 counterexample: the walk's ROOT directory `./plugins` itself (which is
not a subdirectory of the plugins root) contributes `./plugins/plugins.json`,
and a NESTED directory `./plugins/outer/inner` contributes too — in both
cases the collector's path set differs from the claimed
"subdirectory `X` of the plugins root" set, which is empty here. -/
theorem claim_C8_counterexample :
    manifestCandidatePaths c8walk = ["./plugins/plugins.json"]
    ∧ collectorClaimPaths c8walk = []
    ∧ manifestCandidatePaths c8walkNested = ["./plugins/outer/inner/inner.json"]
    ∧ collectorClaimPaths c8walkNested = [] := by
  exact ⟨by decide, by decide, by decide, by decide⟩

/-- C8 (amended): the Collector considers exactly the walked directories
(the root itself and every descendant, at any depth) whose basename `X` has
`X.json` among their files; every other directory is silently ignored (no
manifest, no diagnostic); a candidate manifest file that is unreadable or not
valid JSON is logged with exactly one skip diagnostic and excluded; and such
a failure never aborts the run — the remaining directories produce exactly
the manifests they would produce without the bad one. -/
theorem claim_C8 :
    (∀ (content : Content) (api : ApiFun) (d : DirEntry),
      manifestCandidate d = none → processDir content api d = (none, []))
    ∧ (∀ (content : Content) (api : ApiFun) (d : DirEntry) (p : String),
        manifestCandidate d = some p → content p = none →
        processDir content api d
          = (none, ["[skip] " ++ p ++ ": invalid JSON or unreadable."]))
    ∧ (∀ (content : Content) (api : ApiFun) (ds1 : List DirEntry)
        (d : DirEntry) (ds2 : List DirEntry) (p : String),
        manifestCandidate d = some p → content p = none →
        (collect_valid content api (ds1 ++ d :: ds2)).1
          = (collect_valid content api (ds1 ++ ds2)).1
        ∧ ("[skip] " ++ p ++ ": invalid JSON or unreadable.")
            ∈ (collect_valid content api (ds1 ++ d :: ds2)).2) := by
  refine ⟨processDir_no_candidate, processDir_unreadable, ?_⟩
  intro content api ds1 d ds2 p hc hcon
  induction ds1 with
  | nil =>
      simp only [List.nil_append, collect_valid,
        processDir_unreadable content api d p hc hcon]
      exact ⟨trivial, by simp⟩
  | cons a as ih =>
      simp only [List.cons_append, collect_valid, List.append_eq]
      refine ⟨?_, ?_⟩
      · cases (processDir content api a).1 <;> rw [ih.1]
      · exact List.mem_append_right _ ih.2

/-- Witness for C8: a walk with a non-matching directory, an unreadable
candidate, and a healthy plugin keeps the healthy plugin and logs one skip
line for the unreadable one. -/
theorem claim_C8_witness :
    processDir (fun _ => none) (fun _ _ _ => HttpResult.exn)
      ⟨"./plugins/misc", ["readme.txt"]⟩ = (none, [])
    ∧ processDir (fun _ => none) (fun _ _ _ => HttpResult.exn)
        ⟨"./plugins/bad", ["bad.json"]⟩
      = (none, ["[skip] " ++ "./plugins/bad/bad.json"
          ++ ": invalid JSON or unreadable."])
    ∧ (collect_valid c7content c7api
        (c7w1 ++ ⟨"./plugins/bad", ["bad.json"]⟩ :: [])).1
      = (collect_valid c7content c7api (c7w1 ++ [])).1 := by
  refine ⟨?_, ?_, ?_⟩
  · exact claim_C8.1 (fun _ => none) (fun _ _ _ => HttpResult.exn)
      ⟨"./plugins/misc", ["readme.txt"]⟩ (by decide)
  · exact claim_C8.2.1 (fun _ => none) (fun _ _ _ => HttpResult.exn)
      ⟨"./plugins/bad", ["bad.json"]⟩ "./plugins/bad/bad.json" (by decide) rfl
  · exact (claim_C8.2.2 c7content c7api c7w1 ⟨"./plugins/bad", ["bad.json"]⟩
      [] "./plugins/bad/bad.json" (by decide) rfl).1

/-! ### Claim C2: idempotence of a second run over its own output -/

theorem contains_of_pyGet_str (m : Manifest) (k : String) (s : String)
    (h : pyGet m k = .str s) : containsKey m k = true := by
  rw [containsKey_eq_isSome]
  cases hl : pyLookup m k with
  | none => rw [pyGet, hl] at h; simp at h
  | some x => rfl

theorem pyGetD_eq_pyGet_of_contains (m : Manifest) (k : String) (d : JVal)
    (h : containsKey m k = true) : pyGetD m k d = pyGet m k := by
  rw [getD_eq_ite, if_pos h]

/-- Feeding the written index back in: `prev_map`'s generator sees exactly
the manifests that carry an `InternalName`. -/
theorem prevFilter_map_obj (l : List Manifest) :
    prevFilter (l.map JVal.obj)
      = l.filter (fun q => containsKey q "InternalName") := by
  induction l with
  | nil => rfl
  | cons h t ih =>
      by_cases hc : containsKey h "InternalName" <;>
        simp [prevFilter, List.filterMap_cons, List.filter_cons, hc, ← ih,
          prevFilter]

/-- A stamped manifest is its original with `LastUpdate` set to whatever the
stamp decided. -/
theorem stampManifest_eq_pySet (prevs : List Manifest) (ns : JVal)
    (m : Manifest) :
    stampManifest prevs ns m
      = pySet m "LastUpdate" (pyGet (stampManifest prevs ns m) "LastUpdate") := by
  unfold stampManifest
  cases hp : prevLookup prevs (pyGet m "InternalName") with
  | none => simp only [hp]; rw [pyGet_pySet_same]
  | some prev =>
      simp only [hp]
      split_ifs with hv
      · rw [pySet_pySet_same, pyGet_pySet_same]
      · rw [pyGet_pySet_same]

/-- Under distinct string `InternalName`s, exactly one stamped manifest of the
first run matches a given name. -/
theorem filter_stamp_singleton (prevs1 : List Manifest) (ns1 : JVal) :
    ∀ (base : List Manifest) (m : Manifest) (s : String),
      m ∈ base → pyGet m "InternalName" = .str s →
      (∀ x ∈ base, ∃ t, pyGet x "InternalName" = JVal.str t) →
      base.Pairwise (fun a b => pyGet a "InternalName" ≠ pyGet b "InternalName") →
      (base.map (stampManifest prevs1 ns1)).filter
          (fun p => pyEq (pyGet p "InternalName") (.str s))
        = [stampManifest prevs1 ns1 m]
  | [], m, s, hm, _, _, _ => absurd hm (by simp)
  | h :: t, m, s, hm, hs, H1, H2 => by
      rcases List.pairwise_cons.mp H2 with ⟨hh, ht⟩
      rcases List.mem_cons.mp hm with rfl | hmt
      · have hph : pyEq (pyGet (stampManifest prevs1 ns1 m) "InternalName")
            (.str s) = true := by
          rw [pyGet_stampManifest_other _ _ _ _ (by decide), hs, pyEq_refl]
        have hrest : (t.map (stampManifest prevs1 ns1)).filter
            (fun p => pyEq (pyGet p "InternalName") (.str s)) = [] := by
          rw [List.filter_eq_nil_iff]
          intro a ha
          obtain ⟨x, hx, rfl⟩ := List.mem_map.mp ha
          obtain ⟨tx, htx⟩ := H1 x (by simp [hx])
          rw [pyGet_stampManifest_other _ _ _ _ (by decide), htx]
          have : JVal.str s ≠ JVal.str tx := by
            rw [← hs, ← htx]
            exact hh x hx
          simp only [pyEq_str_iff]
          intro he
          exact this (by rw [he])
        simp [List.filter_cons, hph, hrest]
      · have hph : pyEq (pyGet (stampManifest prevs1 ns1 h) "InternalName")
            (.str s) = false := by
          obtain ⟨th, hth⟩ := H1 h (by simp)
          rw [pyGet_stampManifest_other _ _ _ _ (by decide), hth]
          have : JVal.str th ≠ JVal.str s := by
            rw [← hs, ← hth]
            exact hh m hmt
          cases hb : pyEq (.str th) (.str s)
          · rfl
          · exact absurd (pyEq_str_iff th s |>.mp hb) (fun he => this (by rw [he]))
        rw [List.map_cons, List.filter_cons, hph]
        simp only [Bool.false_eq_true, if_false]
        exact filter_stamp_singleton prevs1 ns1 t m s hmt hs
          (fun x hx => H1 x (by simp [hx])) ht

/-- The `LastUpdate` stamp of a second run over the first run's own output
reproduces the first run's stamp, provided `InternalName`s are distinct
strings. -/
theorem stamp_idempotent (content : Content) (api : ApiFun)
    (previous : List JVal) (now1 now2 : Nat) (walk : List DirEntry)
    (H1 : ∀ m ∈ (collect_valid content api walk).1,
      ∃ s, pyGet m "InternalName" = JVal.str s)
    (H2 : (collect_valid content api walk).1.Pairwise
      (fun a b => pyGet a "InternalName" ≠ pyGet b "InternalName"))
    (m : Manifest) (hm : m ∈ (collect_valid content api walk).1) :
    stampManifest
      (prevFilter ((run_collection content api previous now1 walk).map JVal.obj))
      (.str (toString now2)) m
      = stampManifest (prevFilter previous) (.str (toString now1)) m := by
  obtain ⟨s, hs⟩ := H1 m hm
  set base := (collect_valid content api walk).1 with hbase
  set prevs1 := prevFilter previous with hprevs1
  set ns1 : JVal := .str (toString now1) with hns1
  set out1 := run_collection content api previous now1 walk with hout1
  have hperm : out1.Perm (base.map (stampManifest prevs1 ns1)) := by
    rw [hout1]
    unfold run_collection
    exact stableSort_perm manifestLe _
  have hall : ∀ q ∈ out1, containsKey q "InternalName" = true := by
    intro q hq
    obtain ⟨x, hx, rfl⟩ := List.mem_map.mp (hperm.mem_iff.mp hq)
    obtain ⟨tx, htx⟩ := H1 x hx
    rw [containsKey_stampManifest_other _ _ _ _ (by decide)]
    exact contains_of_pyGet_str x _ tx htx
  have hfilter : prevFilter (out1.map JVal.obj) = out1 := by
    rw [prevFilter_map_obj, List.filter_eq_self.mpr hall]
  have hmatch : out1.filter
      (fun p => pyEq (pyGet p "InternalName") (.str s))
      = [stampManifest prevs1 ns1 m] := by
    have h1 := hperm.filter (fun p => pyEq (pyGet p "InternalName") (.str s))
    rw [filter_stamp_singleton prevs1 ns1 base m s hm hs H1 H2] at h1
    exact List.perm_singleton.mp h1
  have hlook : prevLookup (prevFilter (out1.map JVal.obj)) (pyGet m "InternalName")
      = some (stampManifest prevs1 ns1 m) := by
    rw [hfilter, prevLookup, hs, hmatch]
    rfl
  rw [stampManifest]
  simp only [hlook]
  have hver : pyEq (pyGet (stampManifest prevs1 ns1 m) "AssemblyVersion")
      (pyGet m "AssemblyVersion") = true := by
    rw [pyGet_stampManifest_other _ _ _ _ (by decide), pyEq_refl]
  rw [if_pos hver, pyGetD_eq_pyGet_of_contains _ _ _
    (containsKey_stampManifest_LU prevs1 ns1 m), pySet_pySet_same,
    ← stampManifest_eq_pySet]

/-- C2 counterexample data: two plugin directories whose manifests share
`InternalName` `"A"` with different versions. -/
def c2content : Content := fun p =>
  if p = "./plugins/one/one.json" then
    some [("InternalName", .str "A"), ("AssemblyVersion", .str "1"),
          ("RepoUrl", .str "https://github.com/x/a")]
  else if p = "./plugins/two/two.json" then
    some [("InternalName", .str "A"), ("AssemblyVersion", .str "2"),
          ("RepoUrl", .str "https://github.com/x/a")]
  else none

def c2walk : List DirEntry :=
  [⟨"./plugins", []⟩, ⟨"./plugins/one", ["one.json"]⟩,
   ⟨"./plugins/two", ["two.json"]⟩]

/-- C2 counterexample: with two manifests sharing `InternalName` `"A"`
(versions 1 and 2) and unchanged inputs, the second run (at time 1, previous
index = first run's output) does NOT reproduce the first run's output (time
0): `prev_map` keeps only the last `"A"` entry, so the first manifest's
version appears "changed" and its `LastUpdate` is refreshed from `"0"` to
`"1"`. -/
theorem claim_C2_counterexample :
    pyGet ((run_collection c2content c7api
        ((run_collection c2content c7api [] 0 c2walk).map JVal.obj) 1
        c2walk).headD []) "LastUpdate" = .str "1"
    ∧ pyGet ((run_collection c2content c7api [] 0 c2walk).headD [])
        "LastUpdate" = .str "0"
    ∧ run_collection c2content c7api
        ((run_collection c2content c7api [] 0 c2walk).map JVal.obj) 1 c2walk
      ≠ run_collection c2content c7api [] 0 c2walk := by
  exact ⟨by decide, by decide, by decide⟩

/-- C2 (amended): when the valid manifests' `InternalName` values are strings
and pairwise distinct (one plugin per name — with duplicate names, `prev_map`
keeps only the last entry and the earlier one's timestamp is refreshed),
running the pipeline a second time with unchanged manifests and an unchanged
remote API response, with the first run's output as the previous index,
writes byte-identical output: every field including `LastUpdate` is
reproduced. -/
theorem claim_C2 (content : Content) (api : ApiFun) (previous : List JVal)
    (now1 now2 : Nat) (walk : List DirEntry)
    (H1 : ∀ m ∈ (collect_valid content api walk).1,
      ∃ s, pyGet m "InternalName" = JVal.str s)
    (H2 : (collect_valid content api walk).1.Pairwise
      (fun a b => pyGet a "InternalName" ≠ pyGet b "InternalName")) :
    run_collection content api
        ((run_collection content api previous now1 walk).map JVal.obj)
        now2 walk
      = run_collection content api previous now1 walk
    ∧ write_master (run_collection content api
        ((run_collection content api previous now1 walk).map JVal.obj)
        now2 walk)
      = write_master (run_collection content api previous now1 walk) := by
  have hglut : (extract_manifests content api
      ((run_collection content api previous now1 walk).map JVal.obj)
      now2 walk).1
      = (extract_manifests content api previous now1 walk).1 := by
    simp only [extract_manifests, get_last_updated_times]
    exact List.map_congr_left
      (fun m hm => stamp_idempotent content api previous now1 now2 walk
        H1 H2 m hm)
  have hmain : run_collection content api
      ((run_collection content api previous now1 walk).map JVal.obj)
      now2 walk
      = run_collection content api previous now1 walk :=
    congrArg (stableSort manifestLe) hglut
  exact ⟨hmain, by rw [hmain]⟩

/-- C2 witness data: a single healthy plugin. -/
def c2wc : Content := fun p =>
  if p = "./plugins/foo/foo.json" then
    some [("InternalName", .str "Foo"), ("AssemblyVersion", .str "1.0"),
          ("RepoUrl", .str "https://github.com/x/foo")]
  else none

def c2ww : List DirEntry := [⟨"./plugins", []⟩, ⟨"./plugins/foo", ["foo.json"]⟩]

/-- Witness for C2: a concrete second run over the first run's output, with a
later clock, reproduces the output byte for byte. -/
theorem claim_C2_witness :
    run_collection c2wc c7api
        ((run_collection c2wc c7api [] 5 c2ww).map JVal.obj) 9 c2ww
      = run_collection c2wc c7api [] 5 c2ww
    ∧ write_master (run_collection c2wc c7api
        ((run_collection c2wc c7api [] 5 c2ww).map JVal.obj) 9 c2ww)
      = write_master (run_collection c2wc c7api [] 5 c2ww) := by
  refine claim_C2 c2wc c7api [] 5 9 c2ww ?_ (by decide)
  intro m hm
  refine ⟨"Foo", ?_⟩
  have hL : (collect_valid c2wc c7api c2ww).1.all
      (fun m => decide (pyGet m "InternalName" = JVal.str "Foo")) = true := by
    decide
  exact of_decide_eq_true (List.all_eq_true.mp hL m hm)
